import Mathlib

/-!
# Verification of the Zoom transcript sync plugin

Shallow embedding of the sync engine of the `obsidian-zoom-transcript-sync`
plugin (`main.ts`, `src/zoom-api.ts`, `src/sync-state.ts`,
`src/transcript-writer.ts`) together with proofs of the behavioural
properties stated in the system specification.

JavaScript strings are modelled as Lean `String`s (lists of characters);
machine `number`s that hold counts, ids and epoch milliseconds are modelled
as `Nat`.  Asynchronous network and storage effects are modelled by passing
an explicit environment of call outcomes to the orchestrator, and the file
system as an association list from paths to file contents.
-/

namespace ZoomSync

/- ## Basic JavaScript string modelling helpers -/

/-- Decimal digit character for a digit value `d < 10`. -/
def digitChar (d : Nat) : Char := Char.ofNat (48 + d)

/-- Fuel-driven digit expansion (the fuel only serves structural
termination; `natDigits` always supplies enough). -/
def natDigitsAux : Nat → Nat → List Char
  | 0, _ => []
  | fuel + 1, n =>
    if n < 10 then [digitChar n]
    else natDigitsAux fuel (n / 10) ++ [digitChar (n % 10)]

/-- List of decimal digit characters of `n`, most significant first.
Models the digit sequence produced by JavaScript `String(n)` for a
non-negative integer. -/
def natDigits (n : Nat) : List Char := natDigitsAux (n + 1) n

/-- Decimal rendering of a natural number; models JavaScript `String(n)`. -/
def natToDecimal (n : Nat) : String := ⟨natDigits n⟩

/-- Is `pat` an initial segment of `txt`?  Helper for substring search. -/
def leadsWith : List Char → List Char → Bool
  | [], _ => true
  | _ :: _, [] => false
  | a :: as, b :: bs => a == b && leadsWith as bs

/-- Does `hay` contain `need` as a contiguous sublist?  Models
JavaScript `String.prototype.includes`. -/
def containsList (hay need : List Char) : Bool :=
  match hay with
  | [] => need.isEmpty
  | _ :: t => leadsWith need hay || containsList t need

/-- Models JavaScript `hay.includes(need)`. -/
def strIncludes (hay need : String) : Bool := containsList hay.data need.data

/-- ASCII lower-casing of one character; models the effect of
`String.prototype.toLowerCase` on the ASCII inputs this plugin matches on. -/
def lowerChar (c : Char) : Char :=
  if 'A' ≤ c ∧ c ≤ 'Z' then Char.ofNat (c.toNat + 32) else c

/-- Models JavaScript `s.toLowerCase()` (ASCII range). -/
def lowerStr (s : String) : String := ⟨s.data.map lowerChar⟩

/-- The whitespace class used by JavaScript `\s` and `trim` (ASCII part:
space, tab, newline, carriage return, vertical tab, form feed). -/
def isJsWs (c : Char) : Bool :=
  c = ' ' || c = '\t' || c = '\n' || c = '\r' ||
  c = Char.ofNat 11 || c = Char.ofNat 12

/-- Trim leading and trailing whitespace from a character list. -/
def jsTrimList (l : List Char) : List Char :=
  ((l.dropWhile isJsWs).reverse.dropWhile isJsWs).reverse

/-- Models JavaScript `s.trim()`. -/
def jsTrim (s : String) : String := ⟨jsTrimList s.data⟩

/-- JavaScript truthiness of an optional string: `undefined` and the empty
string are falsy. -/
def strTruthy : Option String → Bool
  | none => false
  | some s => !(s = "")

/-- Models the JavaScript idiom `a || b` on an optional string `a` with a
string default `b`. -/
def jsOrStr (a : Option String) (b : String) : String :=
  match a with
  | some t => if t = "" then b else t
  | none => b

/- ## transcript-writer.ts — filename generation -/

/-- A `recording_files` array element (fields used by the plugin). -/
structure RecordingFile where
  recording_type : String
  download_url : Option String := none
  play_url : Option String := none
deriving Repr, DecidableEq

/-- A Zoom cloud recording as consumed by the plugin (`ZoomRecording`). -/
structure Recording where
  id : Nat
  uuid : String
  topic : Option String := none
  start_time : Option String := none
  duration : Nat := 0
  recording_files : List RecordingFile := []
  participant_audio_files : List (Option String) := []
deriving Repr, DecidableEq

/-- The characters `generateFileName` strips as filesystem-unsafe
(`/ \ * ? " < > |`; the colon is handled separately by replacement). -/
def unsafeFileChar (c : Char) : Bool :=
  c = '/' || c = '\\' || c = '*' || c = '?' || c = '"' ||
  c = '<' || c = '>' || c = '|'

/-- Worker for `collapseWs`; the flag records whether the previous
character belonged to a whitespace run that has already emitted its
single replacement space. -/
def collapseWsAux : Bool → List Char → List Char
  | _, [] => []
  | inRun, c :: rest =>
    if isJsWs c then
      if inRun then collapseWsAux true rest
      else ' ' :: collapseWsAux true rest
    else c :: collapseWsAux false rest

/-- Collapse every maximal run of whitespace into a single space; models
`.replace(/\s+/g, ' ')`. -/
def collapseWs (l : List Char) : List Char := collapseWsAux false l

/-- The sanitisation chain of `generateFileName`: replace colons by `" -"`,
strip unsafe characters, strip single quotes, collapse whitespace, trim. -/
def sanitizeTopicCore (topic : String) : String :=
  let l1 := topic.data.flatMap (fun c => if c = ':' then [' ', '-'] else [c])
  let l2 := l1.filter (fun c => !unsafeFileChar c)
  let l3 := l2.filter (fun c => !(c = '\''))
  ⟨jsTrimList (collapseWs l3)⟩

/-- Parsed UTC components of a date, as returned by the `getUTC*` accessors. -/
structure UtcParts where
  year : Nat
  month : Nat
  day : Nat
  hour : Nat
  minute : Nat
deriving Repr, DecidableEq

/-- Digit value of a character. -/
def dv (c : Char) : Nat := c.toNat - 48

/-- Modelled from the ECMAScript `Date` constructor, restricted to the UTC
ISO-8601 timestamps the Zoom API emits (`YYYY-MM-DDTHH:MM:SSZ`, optionally
with a `.mmm` milliseconds part).  Any other input is treated as an invalid
date (`none`), matching `isNaN(date.getTime())`. -/
def parseIsoUtc (s : String) : Option UtcParts :=
  let build (y1 y2 y3 y4 m1 m2 d1 d2 h1 h2 n1 n2 s1 s2 : Char) : Option UtcParts :=
    if (y1.isDigit && y2.isDigit && y3.isDigit && y4.isDigit &&
        m1.isDigit && m2.isDigit && d1.isDigit && d2.isDigit &&
        h1.isDigit && h2.isDigit && n1.isDigit && n2.isDigit &&
        s1.isDigit && s2.isDigit) then
      let mo := dv m1 * 10 + dv m2
      let da := dv d1 * 10 + dv d2
      let ho := dv h1 * 10 + dv h2
      let mi := dv n1 * 10 + dv n2
      let se := dv s1 * 10 + dv s2
      if 1 ≤ mo && mo ≤ 12 && 1 ≤ da && da ≤ 31 && ho ≤ 23 && mi ≤ 59 && se ≤ 59 then
        some ⟨dv y1 * 1000 + dv y2 * 100 + dv y3 * 10 + dv y4, mo, da, ho, mi⟩
      else none
    else none
  match s.data with
  | [y1, y2, y3, y4, '-', m1, m2, '-', d1, d2, 'T',
     h1, h2, ':', n1, n2, ':', s1, s2, 'Z'] =>
      build y1 y2 y3 y4 m1 m2 d1 d2 h1 h2 n1 n2 s1 s2
  | [y1, y2, y3, y4, '-', m1, m2, '-', d1, d2, 'T',
     h1, h2, ':', n1, n2, ':', s1, s2, '.', p1, p2, p3, 'Z'] =>
      if p1.isDigit && p2.isDigit && p3.isDigit then
        build y1 y2 y3 y4 m1 m2 d1 d2 h1 h2 n1 n2 s1 s2
      else none
  | _ => none

/-- Models `String(n).padStart(2, '0')` for the date components. -/
def pad2 (n : Nat) : String := if n < 10 then "0" ++ natToDecimal n else natToDecimal n

/-- `TranscriptWriter.formatTimeForFilename`: format a start time as
`"YYYY-MM-DD HHMM"`, or the empty string when absent or invalid. -/
def formatTimeForFilename (isoDate : Option String) : String :=
  if !strTruthy isoDate then ""
  else
    match parseIsoUtc (isoDate.getD "") with
    | none => ""
    | some p =>
        natToDecimal p.year ++ "-" ++ pad2 p.month ++ "-" ++ pad2 p.day ++ " " ++
          pad2 p.hour ++ pad2 p.minute

/-- The sanitised, placeholder-defaulted and length-capped topic of
`generateFileName`: sanitise the topic (after the `'Untitled Meeting'`
fallback for a missing or blank topic), fall back to the placeholder again
when sanitisation leaves nothing, and cap at 200 characters. -/
def sanitizedTopic (topic : Option String) : String :=
  let s1 := sanitizeTopicCore (jsOrStr topic "Untitled Meeting")
  let s2 := if s1.data.length = 0 then "Untitled Meeting" else s1
  if s2.data.length > 200 then jsTrim ⟨s2.data.take 200⟩ else s2

/-- `TranscriptWriter.generateFileName`: derive a filesystem-safe `.md`
filename from the recording topic and start time, optionally appending the
numeric meeting id for collision disambiguation. -/
def generateFileName (r : Recording) (includeId : Bool) : String :=
  let timeSuffix := formatTimeForFilename r.start_time
  let baseName :=
    if !(timeSuffix = "") then sanitizedTopic r.topic ++ " - " ++ timeSuffix
    else sanitizedTopic r.topic
  if includeId then baseName ++ " (" ++ natToDecimal r.id ++ ").md"
  else baseName ++ ".md"

/-- The filename resolution step of `syncTranscripts`: take the plain name,
and regenerate with the id appended when a file already exists at that name
(`TranscriptWriter.fileExists` collision check). -/
def resolveFileName (r : Recording) (fileAt : String → Bool) : String :=
  let fileName := generateFileName r false
  if fileAt fileName then generateFileName r true else fileName

example :
    generateFileName
      { id := 123456789, uuid := "u", topic := some "Q4 Planning: What's Next?",
        start_time := some "2025-12-10T14:30:00Z" } false =
      "Q4 Planning - Whats Next - 2025-12-10 1430.md" := by decide

/- ## transcript-writer.ts — VTT parsing and formatting -/

/-- A parsed VTT entry (`VttEntry`): simplified `HH:MM:SS` timestamp,
speaker (empty when un-attributed) and dialogue text. -/
structure VttEntry where
  timestamp : String
  speaker : String
  text : String
deriving Repr, DecidableEq

/-- Match `\d{2}:\d{2}:\d{2}`, returning the eight matched characters and
the remaining input. -/
def matchHMS : List Char → Option (List Char × List Char)
  | a :: b :: c :: d :: e :: f :: g :: h :: rest =>
    if a.isDigit && b.isDigit && c = ':' && d.isDigit && e.isDigit && f = ':' &&
        g.isDigit && h.isDigit then
      some ([a, b, c, d, e, f, g, h], rest)
    else none
  | _ => none

/-- Match `\.\d{3}`, returning the remaining input. -/
def matchMs : List Char → Option (List Char)
  | '.' :: a :: b :: c :: rest =>
    if a.isDigit && b.isDigit && c.isDigit then some rest else none
  | _ => none

/-- Models the cue-timing regular expression
`^(\d{2}:\d{2}:\d{2})\.\d{3}\s*-->\s*\d{2}:\d{2}:\d{2}\.\d{3}$` applied to a
trimmed line; on a match returns the captured `HH:MM:SS` group. -/
def timestampLineMatch (line : List Char) : Option String :=
  match matchHMS line with
  | none => none
  | some (ts, r1) =>
    match matchMs r1 with
    | none => none
    | some r2 =>
      match r2.dropWhile isJsWs with
      | '-' :: '-' :: '>' :: r4 =>
        match matchHMS (r4.dropWhile isJsWs) with
        | none => none
        | some (_, r6) =>
          match matchMs r6 with
          | some [] => some ⟨ts⟩
          | _ => none
      | _ => none

/-- Index of the first `':'` in a character list, if any; models
`String.prototype.indexOf(':')`. -/
def colonIndex : List Char → Option Nat
  | [] => none
  | c :: rest =>
    if c = ':' then some 0
    else (colonIndex rest).map (· + 1)

/-- The speaker/text split applied to the joined dialogue of one cue:
split at the first colon when the part before it is not a bare URL scheme
(`/^https?$/i`) and non-empty text follows the colon; otherwise the whole
dialogue is un-attributed. -/
def splitSpeaker (fullDialogue : String) : String × String :=
  match colonIndex fullDialogue.data with
  | some i =>
    if i > 0 then
      let potentialSpeaker := jsTrim ⟨fullDialogue.data.take i⟩
      let afterColon := jsTrim ⟨fullDialogue.data.drop (i + 1)⟩
      if !(lowerStr potentialSpeaker = "http" || lowerStr potentialSpeaker = "https") &&
          !(afterColon = "") then
        (potentialSpeaker, afterColon)
      else ("", fullDialogue)
    else ("", fullDialogue)
  | none => ("", fullDialogue)

/-- Build the entry for one cue from its captured timestamp and the joined
dialogue text. -/
def mkVttEntry (ts : String) (fullDialogue : String) : VttEntry :=
  let (sp, tx) := splitSpeaker fullDialogue
  ⟨ts, sp, tx⟩

/-- A small helper: `(l.dropWhile p).length ≤ l.length`. -/
theorem dropWhileLengthLe (p : α → Bool) (l : List α) :
    (l.dropWhile p).length ≤ l.length := by
  induction l with
  | nil => simp
  | cons a t ih =>
    rw [List.dropWhile_cons]
    by_cases h : p a
    · simp only [h, if_true, List.length_cons]
      omega
    · simp [h]

/-- Fuel-driven worker for the scanning loop of `parseVtt` (the fuel only
serves structural termination; every step strictly shortens the line list,
so `parseVttLines` always supplies enough). -/
def parseVttAux : Nat → List String → List VttEntry
  | 0, _ => []
  | _, [] => []
  | fuel + 1, line :: rest =>
    match timestampLineMatch (jsTrim line).data with
    | some ts =>
      let dialogue := (rest.takeWhile (fun s => !(jsTrim s = ""))).map jsTrim
      let rest2 := rest.dropWhile (fun s => !(jsTrim s = ""))
      let tail := parseVttAux fuel (rest2.drop 1)
      if dialogue.length > 0 then
        mkVttEntry ts (String.intercalate " " dialogue) :: tail
      else tail
    | none => parseVttAux fuel rest

/-- The scanning loop of `parseVtt` over the split lines: find a cue-timing
line, collect the following trimmed dialogue lines up to a blank line, join
them with single spaces into one entry, skip the blank, and continue. -/
def parseVttLines (lines : List String) : List VttEntry :=
  parseVttAux (lines.length + 1) lines

/-- Split a character list on a separator; models
`String.prototype.split('\n')`. -/
def splitOnChar (sep : Char) : List Char → List (List Char)
  | [] => [[]]
  | c :: rest =>
    match splitOnChar sep rest with
    | [] => [[]]
    | h :: t => if c = sep then [] :: h :: t else (c :: h) :: t

/-- Replace every CRLF by LF; models `.replace(/\r\n/g, '\n')`. -/
def normalizeNewlines : List Char → List Char
  | '\r' :: '\n' :: rest => '\n' :: normalizeNewlines rest
  | c :: rest => c :: normalizeNewlines rest
  | [] => []

/-- `parseVtt`: normalise line endings, split into lines and scan for cue
blocks. -/
def parseVtt (vttContent : String) : List VttEntry :=
  parseVttLines
    ((splitOnChar '\n' (normalizeNewlines vttContent.data)).map (fun l => ⟨l⟩))

/-- `formatVttEntries`: render each entry as a bold timestamp-and-speaker
header followed by the text, entries separated by blank lines. -/
def formatVttEntries (entries : List VttEntry) : String :=
  String.intercalate "\n\n" (entries.map fun e =>
    (if !(e.speaker = "") then "**" ++ e.timestamp ++ " - " ++ e.speaker ++ ":**"
     else "**" ++ e.timestamp ++ ":**") ++ "\n" ++ e.text)

example :
    parseVtt "00:00:16.239 --> 00:00:27.079\nJohn Smith: Hello team." =
      [⟨"00:00:16", "John Smith", "Hello team."⟩] := by decide

/- ## zoom-api.ts — transport retry layer -/

/-- An error thrown by an outbound call: either a `RateLimitError` carrying
the optional `Retry-After` duration in milliseconds, or a plain `Error`
identified by its message. -/
inductive ApiError where
  | rateLimit (retryAfterMs : Option Nat)
  | plain (msg : String)
deriving Repr, DecidableEq

/-- First run of three consecutive decimal digits in a character list;
models the regular expression `/(\d{3})/` followed by `parseInt`. -/
def firstThreeDigits : List Char → Option Nat
  | a :: b :: c :: rest =>
    if a.isDigit && b.isDigit && c.isDigit then
      some (dv a * 100 + dv b * 10 + dv c)
    else firstThreeDigits (b :: c :: rest)
  | _ => none

/-- `ZoomApiClient.isRetryableError`: rate limits are always retryable;
plain errors are retryable on network-style messages or on a first
three-digit status of 429 or 5xx. -/
def isRetryableError (e : ApiError) : Bool :=
  match e with
  | .rateLimit _ => true
  | .plain msg =>
    let m := lowerStr msg
    if strIncludes m "network" || strIncludes m "timeout" || strIncludes m "econnreset" then
      true
    else
      match firstThreeDigits m.data with
      | some status => status == 429 || (500 ≤ status && status < 600)
      | none => false

/-- `ZoomApiClient.getRetryDelay`: the `Retry-After` value for rate-limit
errors that carry one, otherwise the fixed backoff entry for this attempt
(falling back to the last entry). -/
def getRetryDelay (e : ApiError) (attempt : Nat) (backoffDelays : List Nat) : Nat :=
  match e with
  | .rateLimit (some ms) => ms
  | _ =>
    (backoffDelays.get? attempt).getD
      ((backoffDelays.get? (backoffDelays.length - 1)).getD 0)

/-- The retry policy constants of `downloadTranscript` (and of the paging
loop of `listRecordings`): three attempts, immediate / 1 s / 3 s. -/
def MAX_ATTEMPTS : Nat := 3

/-- The fixed backoff schedule in milliseconds. -/
def BACKOFF_DELAYS : List Nat := [0, 1000, 3000]

deriving instance DecidableEq for Except

/-- Observable outcome of one run of the retry loop: the returned or
finally-thrown result, the sequence of waits actually incurred (in
milliseconds, in order), and how many attempts were made. -/
structure RetryTrace where
  result : Except ApiError String
  waits : List Nat
  attemptsUsed : Nat
deriving Repr, DecidableEq

/-- The retry loop of `ZoomApiClient.downloadTranscript`, with the outcome
of each attempt supplied by `outcome`.  Before every attempt after the
first, the computed delay is waited (when positive); a non-retryable error
or the last attempt's error is thrown immediately. -/
def downloadLoop (outcome : Nat → Except ApiError String) :
    Nat → Nat → Option ApiError → List Nat → Nat → RetryTrace
  | 0, _, lastError, waits, used =>
    ⟨.error (lastError.getD (.plain "Download failed after retries")), waits, used⟩
  | fuel + 1, attempt, lastError, waits, used =>
    if attempt < MAX_ATTEMPTS then
      let waits :=
        match lastError with
        | some e =>
          if attempt > 0 then
            let d := getRetryDelay e attempt BACKOFF_DELAYS
            if d > 0 then waits ++ [d] else waits
          else waits
        | none => waits
      match outcome attempt with
      | .ok v => ⟨.ok v, waits, used + 1⟩
      | .error e =>
        if !isRetryableError e then ⟨.error e, waits, used + 1⟩
        else if attempt = MAX_ATTEMPTS - 1 then ⟨.error e, waits, used + 1⟩
        else downloadLoop outcome fuel (attempt + 1) (some e) waits (used + 1)
    else
      ⟨.error (lastError.getD (.plain "Download failed after retries")), waits, used⟩

/-- `ZoomApiClient.downloadTranscript` viewed through the retry layer:
start at attempt 0 with no previous error (the first argument is fuel for
structural termination; `MAX_ATTEMPTS` iterations can occur, so
`MAX_ATTEMPTS` fuel is always enough). -/
def downloadTranscriptRun (outcome : Nat → Except ApiError String) : RetryTrace :=
  downloadLoop outcome MAX_ATTEMPTS 0 none [] 0

/- ## zoom-api.ts — recording discovery: deduplication and filtering -/

/-- Does a recording expose at least one transcript-typed recording file?
Models the final filter predicate of `listRecordings`. -/
def hasTranscriptFile (r : Recording) : Bool :=
  r.recording_files.any (fun f => f.recording_type = "audio_transcript")

/-- The page-accumulation step of `listRecordings`: append each meeting of a
page whose UUID has not been seen yet, first occurrence winning. -/
def accumulateMeetings :
    List String → List Recording → List Recording → List String × List Recording
  | seen, acc, [] => (seen, acc)
  | seen, acc, m :: rest =>
    if seen.contains m.uuid then accumulateMeetings seen acc rest
    else accumulateMeetings (seen ++ [m.uuid]) (acc ++ [m]) rest

/-- The pure core of `ZoomApiClient.listRecordings`: fold the successive
result pages (in user / month-window / page order) through UUID
deduplication, then keep only the recordings that have a transcript file. -/
def listRecordingsCore (pages : List (List Recording)) : List Recording :=
  ((pages.foldl (fun (st : List String × List Recording) page =>
      accumulateMeetings st.1 st.2 page) ([], [])).2).filter hasTranscriptFile

/- ## zoom-api.ts — participant extraction -/

/-- Does this character list start with `'s audio.` (case-insensitively in
the letters), the delimiter of Zoom participant audio file names? -/
def startsApostropheSAudio : List Char → Bool
  | '\'' :: s :: ' ' :: a :: u :: d :: i :: o :: '.' :: _ =>
    lowerChar s = 's' && lowerChar a = 'a' && lowerChar u = 'u' &&
    lowerChar d = 'd' && lowerChar i = 'i' && lowerChar o = 'o'
  | _ => false

/-- Lazy search of `/^(.+?)'s audio\./i`: the shortest non-empty prefix
followed by `'s audio.`.  Returns the captured prefix. -/
def lazyAudioSplit : List Char → List Char → Option (List Char)
  | acc, rest =>
    if !acc.isEmpty && startsApostropheSAudio rest then some acc.reverse
    else
      match rest with
      | [] => none
      | c :: t => lazyAudioSplit (c :: acc) t

/-- `extractParticipantsFromRecording`: extract unique participant names
from `participant_audio_files` entries named like `John Smith's audio.m4a`. -/
def extractParticipantsFromRecording (r : Recording) : List String :=
  r.participant_audio_files.foldl (fun names file =>
    match file with
    | none => names
    | some fileName =>
      match lazyAudioSplit [] fileName.data with
      | none => names
      | some captured =>
        let name := jsTrim ⟨captured⟩
        if !(name = "") && !names.contains name then names ++ [name] else names) []

/- ## transcript-writer.ts — document generation -/

/-- `escapeYamlString`: escape backslashes, then double quotes. -/
def escapeYamlString (s : String) : String :=
  ⟨(s.data.flatMap (fun c => if c = '\\' then ['\\', '\\'] else [c])).flatMap
    (fun c => if c = '"' then ['\\', '"'] else [c])⟩

/-- `getRecordingUrl`: the `play_url` of the first recording file, or the
empty string. -/
def getRecordingUrl (r : Recording) : String :=
  match r.recording_files with
  | [] => ""
  | f :: _ => f.play_url.getD ""

/-- `generateFrontmatter`: the YAML metadata block.  The `synced_at` wall
clock reading (`new Date().toISOString()`) is passed in as `nowIso`. -/
def generateFrontmatter (r : Recording) (nowIso : String) (attendees : List String) : String :=
  let meetingName := escapeYamlString (jsOrStr r.topic "")
  let attendeeLines :=
    String.intercalate "\n" (attendees.map (fun n => "  - " ++ escapeYamlString n))
  "---\nmeeting_name: \"" ++ meetingName ++ "\"\nmeeting_time: " ++
    (jsOrStr r.start_time "") ++ "\nmeeting_duration: " ++ natToDecimal r.duration ++
    "\nattendees:\n" ++ attendeeLines ++ "\ntopic: \"" ++ meetingName ++
    "\"\nhost: \"\"\nrecording_url: \"" ++ getRecordingUrl r ++
    "\"\nzoom_meeting_id: \"" ++ (if r.id = 0 then "" else natToDecimal r.id) ++
    "\"\nsynced_at: " ++ nowIso ++ "\n---"

/-- The month names used by `formatDate`. -/
def monthName (m : Nat) : String :=
  (["January", "February", "March", "April", "May", "June", "July", "August",
    "September", "October", "November", "December"].get? (m - 1)).getD ""

/-- `formatDate`: human-readable date (`December 10, 2025`), or the empty
string when absent or invalid. -/
def formatDateLong (isoDate : Option String) : String :=
  if !strTruthy isoDate then ""
  else
    match parseIsoUtc (isoDate.getD "") with
    | none => ""
    | some p => monthName p.month ++ " " ++ natToDecimal p.day ++ ", " ++ natToDecimal p.year

/-- `generateHeader`: title, date, duration and host lines. -/
def generateHeader (r : Recording) : String :=
  "# " ++ jsOrStr r.topic "" ++ "\n\n**Date:** " ++ formatDateLong r.start_time ++
    "\n**Duration:** " ++ natToDecimal r.duration ++ " minutes\n**Host:** "

/-- `generateAttendeesSection`: H2 header plus one bullet per attendee. -/
def generateAttendeesSection (attendees : List String) : String :=
  String.intercalate "\n" ("## Attendees" :: attendees.map (fun a => "- " ++ a))

/-- `generateTranscriptSection`: H2 header plus the formatted entries. -/
def generateTranscriptSection (vttContent : String) : String :=
  "## Transcript\n\n" ++ formatVttEntries (parseVtt vttContent)

/-- `generateBody`: header, attendees and transcript sections. -/
def generateBody (r : Recording) (vttContent : String) (attendees : List String) : String :=
  generateHeader r ++ "\n\n" ++ generateAttendeesSection attendees ++ "\n\n" ++
    generateTranscriptSection vttContent

/-- `generateTranscript`: complete document, frontmatter plus body. -/
def generateTranscript (r : Recording) (nowIso : String) (vttContent : String)
    (attendees : List String) : String :=
  generateFrontmatter r nowIso attendees ++ "\n\n" ++ generateBody r vttContent attendees

/- ## sync-state.ts — in-memory state operations -/

/-- One value of the `syncedMeetings` map: epoch-milliseconds sync time and
the written file name. -/
structure SyncEntry where
  syncedAt : Nat
  fileName : String
deriving Repr, DecidableEq

/-- The persisted sync state: format version and the map from meeting id to
its entry, modelled as an association list in object-key insertion order. -/
structure SyncState where
  version : Nat
  syncedMeetings : List (String × SyncEntry)
deriving Repr, DecidableEq

/-- JavaScript object property assignment `obj[k] = v`: overwrite in place
when the key exists, otherwise append. -/
def objSet (m : List (String × SyncEntry)) (k : String) (v : SyncEntry) :
    List (String × SyncEntry) :=
  if m.any (fun p => p.1 = k) then
    m.map (fun p => if p.1 = k then (k, v) else p)
  else m ++ [(k, v)]

/-- `SyncStateManager.isSynced` on a loaded state: key membership in
`syncedMeetings`. -/
def isSyncedMap (m : List (String × SyncEntry)) (meetingId : String) : Bool :=
  m.any (fun p => p.1 = meetingId)

/- ## main.ts — the sync orchestrator -/

/-- The error classes `handleApiError` distinguishes by substring matching
on the lower-cased message. -/
inductive ErrClass where
  | auth
  | rate
  | network
deriving Repr, DecidableEq

/-- The classification performed by `ZoomTranscriptSync.handleApiError`:
authentication (`401`/`403`/`invalid`/`unauthorized`), rate limiting
(`429`/`rate`), network (`network`/`timeout`/`econnreset`), or none. -/
def classifyError (msg : String) : Option ErrClass :=
  let m := lowerStr msg
  if strIncludes m "401" || strIncludes m "403" || strIncludes m "invalid" ||
      strIncludes m "unauthorized" then some .auth
  else if strIncludes m "429" || strIncludes m "rate" then some .rate
  else if strIncludes m "network" || strIncludes m "timeout" ||
      strIncludes m "econnreset" then some .network
  else none

/-- A Zoom past meeting returned by the reports endpoint
(`ZoomPastMeeting`, fields used by the plugin). -/
structure PastMeeting where
  id : Nat
  uuid : String
  topic : Option String := none
  mtype : Nat := 0
  start_time : Option String := none
  duration : Nat := 0
deriving Repr, DecidableEq

/-- One transcript descriptor of the AI-companion transcript lookup. -/
structure TranscriptMeta where
  can_download : Bool
  download_url : Option String := none
  account_id : String := ""
  host_id : String := ""
  meeting_topic : Option String := none
deriving Repr, DecidableEq

/-- The feature settings the orchestrator consults. -/
structure Settings where
  fetchRecordingTranscripts : Bool
  fetchAICompanionTranscripts : Bool
deriving Repr, DecidableEq

/-- The environment of one run: the outcome of every outbound call as the
orchestrator observes it (each already filtered through the retry layer),
plus the wall-clock readings.  Errors are identified by the message of the
thrown `Error`. -/
structure Env where
  now : Nat
  nowIso : String
  listRecordingsResult : Except String (List Recording)
  downloadResult : String → Except String String
  listPastMeetingsResult : Except String (List PastMeeting)
  meetingTranscriptResult : String → Except String (List TranscriptMeta)
  downloadDirectResult : String → Except String String

/-- The mutable state a run threads: the vault folder contents (file name to
document text), the in-memory sync state map, counters, dedup set, flags,
and instrumentation traces of the download attempts and file creations
performed, each tagged with the candidate's meeting id. -/
structure RunState where
  vault : List (String × String)
  syncedMeetings : List (String × SyncEntry)
  stateSaves : Nat
  syncedCount : Nat
  skippedCount : Nat
  failedCount : Nat
  processedUuids : List String
  autoSyncEnabled : Bool
  tokenCleared : Bool
  downloads : List (String × String)
  creates : List (String × String)
deriving Repr, DecidableEq

/-- Initial run state over a vault and a loaded sync state. -/
def mkRunState (vault : List (String × String)) (state : List (String × SyncEntry)) :
    RunState :=
  { vault := vault, syncedMeetings := state, stateSaves := 0, syncedCount := 0,
    skippedCount := 0, failedCount := 0, processedUuids := [],
    autoSyncEnabled := true, tokenCleared := false, downloads := [], creates := [] }

/-- `handleApiError` with its side effects: on an authentication error the
cached token is cleared and automatic syncing disabled; returns whether the
sync should stop. -/
def handleApiError (msg : String) (st : RunState) : Bool × RunState :=
  match classifyError msg with
  | some .auth => (true, { st with tokenCleared := true, autoSyncEnabled := false })
  | some .rate => (true, st)
  | some .network => (true, st)
  | none => (false, st)

/-- Does a file with this name exist in the transcript folder?
(`TranscriptWriter.fileExists`.) -/
def fileExistsIn (vault : List (String × String)) (fileName : String) : Bool :=
  vault.any (fun p => p.1 = fileName)

/-- `TranscriptWriter.writeToVault` on the modelled vault: create the file
only when no file exists at the resolved name. -/
def writeToVault (vault : List (String × String)) (fileName content : String) :
    List (String × String) :=
  if fileExistsIn vault fileName then vault else vault ++ [(fileName, content)]

/-- The write-and-record tail shared by both sources: resolve collisions,
write the document, mark the meeting synced and persist the state. -/
def commitDocument (env : Env) (st : RunState) (meetingId : String) (r : Recording)
    (content0 : String) (attendees : List String) : RunState :=
  let fileName0 := generateFileName r false
  let fileName :=
    if fileExistsIn st.vault fileName0 then generateFileName r true else fileName0
  let content := generateTranscript r env.nowIso content0 attendees
  let created := !fileExistsIn st.vault fileName
  { st with
    vault := writeToVault st.vault fileName content
    creates := if created then st.creates ++ [(meetingId, fileName)] else st.creates
    syncedMeetings := objSet st.syncedMeetings meetingId ⟨env.now, fileName⟩
    stateSaves := st.stateSaves + 1
    syncedCount := st.syncedCount + 1 }

/-- Processing of one cloud-recording candidate (the body of the
`Source 1` loop of `syncTranscripts`).  Returns the new state and whether
the whole run must stop (the early `return` after `handleApiError`). -/
def processRecording (env : Env) (st : RunState) (r : Recording) : RunState × Bool :=
  let meetingId := natToDecimal r.id
  let st := { st with processedUuids := st.processedUuids ++ [r.uuid] }
  if isSyncedMap st.syncedMeetings meetingId then
    ({ st with skippedCount := st.skippedCount + 1 }, false)
  else
    match r.recording_files.find? (fun f => f.recording_type = "audio_transcript") with
    | none => (st, false)
    | some transcriptFile =>
      if !strTruthy transcriptFile.download_url then (st, false)
      else
        let url := transcriptFile.download_url.getD ""
        let st := { st with downloads := st.downloads ++ [(meetingId, url)] }
        match env.downloadResult url with
        | .error msg =>
          let (stop, st') := handleApiError msg st
          if stop then (st', true)
          else ({ st' with failedCount := st'.failedCount + 1 }, false)
        | .ok vttContent =>
          let attendees := extractParticipantsFromRecording r
          (commitDocument env st meetingId r vttContent attendees, false)

/-- The `Source 1` loop over the discovered recordings. -/
def runLoop1 (env : Env) : RunState → List Recording → RunState × Bool
  | st, [] => (st, false)
  | st, r :: rest =>
    match processRecording env st r with
    | (st', true) => (st', true)
    | (st', false) => runLoop1 env st' rest

/-- The pseudo recording object built for an AI-companion transcript. -/
def pseudoRecording (m : PastMeeting) (t : TranscriptMeta) : Recording :=
  { id := m.id, uuid := m.uuid,
    topic := match m.topic with
             | some s => if s = "" then t.meeting_topic else some s
             | none => t.meeting_topic,
    start_time := m.start_time, duration := m.duration,
    recording_files := [], participant_audio_files := [] }

/-- Processing of one past meeting (the body of the `Source 2` loop of
`syncTranscripts`): AI-companion transcript lookup, download and write,
with `401`/`403`/`404` lookup failures skipped silently and `404`-class
failures excluded from the failure count. -/
def processPastMeeting (env : Env) (st : RunState) (m : PastMeeting) : RunState × Bool :=
  let meetingId := natToDecimal m.id
  if st.processedUuids.contains m.uuid then (st, false)
  else if isSyncedMap st.syncedMeetings meetingId then
    ({ st with skippedCount := st.skippedCount + 1 }, false)
  else
    match env.meetingTranscriptResult m.uuid with
    | .error msg =>
      if strIncludes msg "401" || strIncludes msg "403" || strIncludes msg "404" then
        (st, false)
      else if strIncludes msg "404" then (st, false)
      else ({ st with failedCount := st.failedCount + 1 }, false)
    | .ok transcripts =>
      if transcripts.isEmpty then (st, false)
      else
        match transcripts.find? (fun t => t.can_download && strTruthy t.download_url) with
        | none => (st, false)
        | some transcript =>
          let url := transcript.download_url.getD ""
          let st := { st with downloads := st.downloads ++ [(meetingId, url)] }
          match env.downloadDirectResult url with
          | .error msg =>
            if strIncludes msg "401" || strIncludes msg "403" then (st, false)
            else
              let (stop, st') := handleApiError msg st
              if stop then (st', true)
              else if strIncludes msg "404" then (st', false)
              else ({ st' with failedCount := st'.failedCount + 1 }, false)
          | .ok transcriptContent =>
            (commitDocument env st meetingId (pseudoRecording m transcript)
              transcriptContent [], false)

/-- The `Source 2` loop over the listed past meetings. -/
def runLoop2 (env : Env) : RunState → List PastMeeting → RunState × Bool
  | st, [] => (st, false)
  | st, m :: rest =>
    match processPastMeeting env st m with
    | (st', true) => (st', true)
    | (st', false) => runLoop2 env st' rest

/-- How one run ends: normal completion, an early `return` (lock released
by the `finally`), or an uncaught rethrown error. -/
inductive RunOutcome where
  | completed
  | earlyReturn
  | uncaught (msg : String)
deriving Repr, DecidableEq

/-- The `Source 1: Cloud Recording Transcripts` phase of `syncTranscripts`:
list recordings (stopping or rethrowing on classified failures) and process
each one.  `some outcome` means the whole run ends with that outcome. -/
def runSource1 (env : Env) (s : Settings) (st : RunState) :
    RunState × Option RunOutcome :=
  if s.fetchRecordingTranscripts then
    match env.listRecordingsResult with
    | .error msg =>
      let (stop, st') := handleApiError msg st
      (st', some (if stop then .earlyReturn else .uncaught msg))
    | .ok recordings =>
      match runLoop1 env st recordings with
      | (st', true) => (st', some .earlyReturn)
      | (st', false) => (st', none)
  else (st, none)

/-- The `Source 2: AI Companion Transcripts` phase of `syncTranscripts`:
list past meetings (stopping on classified failures, otherwise continuing
with an empty list) and process each one. -/
def runSource2 (env : Env) (s : Settings) (st : RunState) :
    RunState × Option RunOutcome :=
  if s.fetchAICompanionTranscripts then
    let pastMeetings : RunState × Option (List PastMeeting) :=
      match env.listPastMeetingsResult with
      | .error msg =>
        let (stop, st') := handleApiError msg st
        if stop then (st', none) else (st', some [])
      | .ok ms => (st, some ms)
    match pastMeetings with
    | (st', none) => (st', some .earlyReturn)
    | (st', some ms) =>
      match runLoop2 env st' ms with
      | (st'', true) => (st'', some .earlyReturn)
      | (st'', false) => (st'', none)
  else (st, none)

/-- `ZoomTranscriptSync.syncTranscripts` for one run that passes the
run-lock and source-enabled guards: load state, query each enabled source,
process its candidates, and stop early on run-stopping failures. -/
def runSync (env : Env) (s : Settings) (init : RunState) : RunState × RunOutcome :=
  if !s.fetchRecordingTranscripts && !s.fetchAICompanionTranscripts then
    (init, .earlyReturn)
  else
    match runSource1 env s init with
    | (st, some outcome) => (st, outcome)
    | (st, none) =>
      match runSource2 env s st with
      | (st', some outcome) => (st', outcome)
      | (st', none) => (st', .completed)

/- ## sync-state.ts — persistence

`writeState` serialises via `JSON.stringify(state, null, 2)` and `readState`
deserialises via `JSON.parse`.  The serialiser below reproduces the exact
text `JSON.stringify` emits for the state object's shape (two-space
indentation, `"` and `\` escaped in strings), and the parser models
`JSON.parse` restricted to that shape, whitespace-insensitively.  Strings
containing control characters (which `JSON.stringify` would escape as
`\uXXXX` or `\n`-style sequences) are outside the model; theorems scope to
control-free strings via `jsonSafeState`. -/

/-- The escape expansion `JSON.stringify` applies to one character of a
string value: `"` and `\` gain a backslash, everything else is copied. -/
def escF (c : Char) : List Char :=
  if c = '"' then ['\\', '"'] else if c = '\\' then ['\\', '\\'] else [c]

/-- JSON string-escaping of `"` and `\`. -/
def escapeJsonChars (s : String) : List Char :=
  s.data.flatMap escF

/-- A quoted, escaped JSON string literal. -/
def quoteJson (s : String) : String := "\"" ++ ⟨escapeJsonChars s⟩ ++ "\""

/-- One `syncedMeetings` entry as `JSON.stringify(·, null, 2)` renders it at
nesting depth two. -/
def renderEntry (p : String × SyncEntry) : String :=
  "    " ++ quoteJson p.1 ++ ": \x7b\n      \"syncedAt\": " ++
    natToDecimal p.2.syncedAt ++ ",\n      \"fileName\": " ++
    quoteJson p.2.fileName ++ "\n    \x7d"

/-- Comma-and-newline join of the rendered entries (the member separator
`JSON.stringify(·, null, 2)` places between properties). -/
def joinEntries : List (String × SyncEntry) → String
  | [] => ""
  | [p] => renderEntry p
  | p :: q :: rest => renderEntry p ++ ",\n" ++ joinEntries (q :: rest)

/-- The `syncedMeetings` object as rendered at nesting depth one. -/
def renderMeetings (m : List (String × SyncEntry)) : String :=
  match m with
  | [] => "\x7b\x7d"
  | _ => "\x7b\n" ++ joinEntries m ++ "\n  \x7d"

/-- The file content `writeState` produces:
`JSON.stringify({version, syncedMeetings}, null, 2)`. -/
def renderSyncState (s : SyncState) : String :=
  "\x7b\n  \"version\": " ++ natToDecimal s.version ++ ",\n  \"syncedMeetings\": " ++
    renderMeetings s.syncedMeetings ++ "\n\x7d"

/-- The whitespace characters insignificant in JSON. -/
def isJsonWs (c : Char) : Bool := c = ' ' || c = '\n' || c = '\t' || c = '\r'

/-- Skip insignificant whitespace. -/
def skipJsonWs (l : List Char) : List Char := l.dropWhile isJsonWs

/-- Consume an exact literal character sequence. -/
def parseExact : List Char → List Char → Option (List Char)
  | [], input => some input
  | _ :: _, [] => none
  | c :: cs, d :: ds => if c = d then parseExact cs ds else none

/-- Body of a JSON string literal after the opening quote, unescaping the
`\"` and `\\` sequences the serialiser emits. -/
def parseStringBody : List Char → List Char → Option (String × List Char)
  | _, [] => none
  | acc, c :: rest =>
    if c = '"' then some (⟨acc.reverse⟩, rest)
    else if c = '\\' then
      match rest with
      | [] => none
      | d :: rest2 =>
        if d = '"' || d = '\\' then parseStringBody (d :: acc) rest2 else none
    else parseStringBody (c :: acc) rest

/-- A JSON string literal. -/
def parseJsonString : List Char → Option (String × List Char)
  | '"' :: rest => parseStringBody [] rest
  | _ => none

/-- Digit-accumulation worker for number parsing. -/
def parseNatAux : Nat → List Char → Nat × List Char
  | acc, [] => (acc, [])
  | acc, c :: rest =>
    if c.isDigit then parseNatAux (acc * 10 + dv c) rest else (acc, c :: rest)

/-- A non-negative JSON integer. -/
def parseJsonNat : List Char → Option (Nat × List Char)
  | [] => none
  | c :: rest => if c.isDigit then some (parseNatAux (dv c) rest) else none

/-- One `{"syncedAt": …, "fileName": …}` object. -/
def parseEntryObj (input : List Char) : Option (SyncEntry × List Char) := do
  let i1 ← parseExact ['{'] (skipJsonWs input)
  let i2 ← parseExact "\"syncedAt\"".data (skipJsonWs i1)
  let i3 ← parseExact [':'] (skipJsonWs i2)
  let (n, i4) ← parseJsonNat (skipJsonWs i3)
  let i5 ← parseExact [','] (skipJsonWs i4)
  let i6 ← parseExact "\"fileName\"".data (skipJsonWs i5)
  let i7 ← parseExact [':'] (skipJsonWs i6)
  let (f, i8) ← parseJsonString (skipJsonWs i7)
  let i9 ← parseExact ['}'] (skipJsonWs i8)
  return (⟨n, f⟩, i9)

/-- The non-empty member list of the `syncedMeetings` object, up to and
including the closing brace (fuel-driven; one unit per member suffices). -/
def parseMeetingsEntries : Nat → List Char → Option (List (String × SyncEntry) × List Char)
  | 0, _ => none
  | fuel + 1, input => do
    let (k, i1) ← parseJsonString (skipJsonWs input)
    let i2 ← parseExact [':'] (skipJsonWs i1)
    let (e, i3) ← parseEntryObj i2
    match skipJsonWs i3 with
    | ',' :: i4 => do
      let (restEntries, i5) ← parseMeetingsEntries fuel i4
      return ((k, e) :: restEntries, i5)
    | '}' :: i4 => return ([(k, e)], i4)
    | _ => none

/-- The `syncedMeetings` object. -/
def parseMeetingsObj (fuel : Nat) (input : List Char) :
    Option (List (String × SyncEntry) × List Char) := do
  let i1 ← parseExact ['{'] (skipJsonWs input)
  match skipJsonWs i1 with
  | '}' :: i2 => return ([], i2)
  | rest => parseMeetingsEntries fuel rest

/-- `JSON.parse` restricted to the state-file shape, as consumed by
`readState` (`JSON.parse(content) as SyncState`).  Rejects trailing
content, like `JSON.parse`. -/
def parseSyncState (content : String) : Option SyncState := do
  let input := content.data
  let i1 ← parseExact ['{'] (skipJsonWs input)
  let i2 ← parseExact "\"version\"".data (skipJsonWs i1)
  let i3 ← parseExact [':'] (skipJsonWs i2)
  let (v, i4) ← parseJsonNat (skipJsonWs i3)
  let i5 ← parseExact [','] (skipJsonWs i4)
  let i6 ← parseExact "\"syncedMeetings\"".data (skipJsonWs i5)
  let i7 ← parseExact [':'] (skipJsonWs i6)
  let (m, i8) ← parseMeetingsObj (input.length + 1) (skipJsonWs i7)
  let i9 ← parseExact ['}'] (skipJsonWs i8)
  if (skipJsonWs i9).isEmpty then return ⟨v, m⟩ else none

/-- The state file path inside the transcript folder. -/
def stateFilePath (folder : String) : String := folder ++ "/.zoom-sync-state.json"

/-- The modelled vault adapter: a map from path to file content. -/
abbrev FileSys : Type := List (String × String)

/-- `vault.adapter.read`, as `Option`. -/
def fsGet (fs : FileSys) (path : String) : Option String :=
  ((fs : List (String × String)).find? (fun p => p.1 = path)).map (fun p => p.2)

/-- `vault.adapter.write`: overwrite or create. -/
def fsSet (fs : FileSys) (path content : String) : FileSys :=
  if (fs : List (String × String)).any (fun p => p.1 = path) then
    (fs : List (String × String)).map (fun p => if p.1 = path then (path, content) else p)
  else (fs : List (String × String)) ++ [(path, content)]

/-- Remove a path. -/
def fsRemove (fs : FileSys) (path : String) : FileSys :=
  (fs : List (String × String)).filter (fun p => !(p.1 = path))

/-- `vault.adapter.rename`: move the content of `src` over `dst`. -/
def fsRename (fs : FileSys) (src dst : String) : FileSys :=
  match fsGet fs src with
  | none => fs
  | some content => fsSet (fsRemove fs src) dst content

/-- `SyncStateManager.readState`: read and parse the state file; a missing
file or unparsable content yields the fresh empty state. -/
def readStateFS (folder : String) (fs : FileSys) : SyncState :=
  match fsGet fs (stateFilePath folder) with
  | none => ⟨1, []⟩
  | some content => (parseSyncState content).getD ⟨1, []⟩

/-- `SyncStateManager.writeState`: serialise, write to the temporary file,
then atomically rename over the canonical path. -/
def writeStateFS (folder : String) (state : SyncState) (fs : FileSys) : FileSys :=
  let content := renderSyncState state
  let tempPath := stateFilePath folder ++ ".tmp"
  fsRename (fsSet fs tempPath content) tempPath (stateFilePath folder)

/-- No control characters (which `JSON.stringify` would escape in ways the
model does not cover). -/
def jsonSafeChar (c : Char) : Bool := 32 ≤ c.toNat

/-- All id keys and file names of the state are control-character-free. -/
def jsonSafeState (s : SyncState) : Bool :=
  s.syncedMeetings.all (fun p => p.1.data.all jsonSafeChar && p.2.fileName.data.all jsonSafeChar)

/- ## Helper lemmas -/

/-- Characters the specification requires to be absent from generated file
names: the filesystem-unsafe set plus the colon. -/
def safeNameChar (c : Char) : Bool := !(unsafeFileChar c || c = ':')

theorem safeNameChar_digitChar {d : Nat} (h : d < 10) :
    safeNameChar (digitChar d) = true := by
  interval_cases d <;> decide

theorem natDigitsAux_safe : ∀ fuel n, (natDigitsAux fuel n).all safeNameChar = true := by
  intro fuel
  induction fuel with
  | zero => intro n; rfl
  | succ f ih =>
    intro n
    rw [natDigitsAux]
    by_cases h : n < 10
    · simp [h, safeNameChar_digitChar h]
    · have hm : n % 10 < 10 := Nat.mod_lt _ (by omega)
      simp [h, List.all_append, ih (n / 10), safeNameChar_digitChar hm]

theorem natToDecimal_safe (n : Nat) : (natToDecimal n).data.all safeNameChar = true :=
  natDigitsAux_safe (n + 1) n

theorem stringAll_append (p : Char → Bool) (a b : String) :
    (a ++ b).data.all p = (a.data.all p && b.data.all p) := by
  simp [String.data_append, List.all_append]

theorem pad2_safe (n : Nat) : (pad2 n).data.all safeNameChar = true := by
  rw [pad2]
  by_cases h : n < 10
  · rw [if_pos h, stringAll_append]
    simp [natToDecimal_safe]
    decide
  · rw [if_neg h]
    exact natToDecimal_safe n

theorem formatTime_safe (x : Option String) :
    (formatTimeForFilename x).data.all safeNameChar = true := by
  rw [formatTimeForFilename]
  by_cases h : strTruthy x = true
  · have hb : (!strTruthy x) = false := by rw [h]; rfl
    rw [if_neg (by rw [hb]; exact Bool.false_ne_true)]
    cases hp : parseIsoUtc (x.getD "") with
    | none => rfl
    | some p =>
      simp [stringAll_append, natToDecimal_safe, pad2_safe]
      decide
  · have hb : (!strTruthy x) = true := by
      revert h; cases strTruthy x <;> simp
    rw [if_pos hb]
    rfl

theorem mem_collapseWsAux : ∀ b l (c : Char), c ∈ collapseWsAux b l → c ∈ l ∨ c = ' ' := by
  intro b l
  induction l generalizing b with
  | nil => intro c h; simp [collapseWsAux] at h
  | cons a t ih =>
    intro c h
    rw [collapseWsAux] at h
    by_cases ha : isJsWs a = true
    · simp only [ha, if_true] at h
      by_cases hb : b = true
      · subst hb
        simp only [if_true] at h
        rcases ih true c h with h' | h'
        · exact Or.inl (List.mem_cons_of_mem _ h')
        · exact Or.inr h'
      · simp only [Bool.not_eq_true] at hb
        subst hb
        simp only [Bool.false_eq_true, if_false] at h
        rcases List.mem_cons.mp h with h' | h'
        · exact Or.inr h'
        · rcases ih true c h' with h'' | h''
          · exact Or.inl (List.mem_cons_of_mem _ h'')
          · exact Or.inr h''
    · simp only [Bool.not_eq_true] at ha
      simp only [ha, Bool.false_eq_true, if_false] at h
      rcases List.mem_cons.mp h with h' | h'
      · exact Or.inl (by simp [h'])
      · rcases ih false c h' with h'' | h''
        · exact Or.inl (List.mem_cons_of_mem _ h'')
        · exact Or.inr h''

theorem mem_dropWhile (p : α → Bool) : ∀ (l : List α) (c : α), c ∈ l.dropWhile p → c ∈ l := by
  intro l
  induction l with
  | nil => intro c h; simp [List.dropWhile] at h
  | cons a t ih =>
    intro c h
    rw [List.dropWhile_cons] at h
    by_cases ha : p a = true
    · simp only [ha, if_true] at h
      exact List.mem_cons_of_mem _ (ih c h)
    · simp only [ha, Bool.false_eq_true, if_false] at h
      exact h

theorem mem_jsTrimList (l : List Char) (c : Char) (h : c ∈ jsTrimList l) : c ∈ l := by
  rw [jsTrimList, List.mem_reverse] at h
  have h1 := mem_dropWhile isJsWs _ _ h
  rw [List.mem_reverse] at h1
  exact mem_dropWhile isJsWs _ _ h1

theorem sanitize_safe (t : String) :
    (sanitizeTopicCore t).data.all safeNameChar = true := by
  rw [List.all_eq_true]
  intro c hc
  simp only [sanitizeTopicCore] at hc
  have h1 := mem_jsTrimList _ _ hc
  rcases mem_collapseWsAux false _ _ h1 with h2 | h2
  · rw [List.mem_filter] at h2
    obtain ⟨h3, _⟩ := h2
    rw [List.mem_filter] at h3
    obtain ⟨h4, hu⟩ := h3
    have hu' : unsafeFileChar c = false := by simpa using hu
    rw [List.mem_flatMap] at h4
    obtain ⟨a, _, hca⟩ := h4
    have hcol : ¬(c = ':') := by
      by_cases hac : a = ':'
      · subst hac
        simp at hca
        rcases hca with h | h <;> (subst h; decide)
      · simp [hac] at hca
        subst hca
        exact hac
    simp [safeNameChar, hu', hcol]
  · subst h2; decide

theorem mem_take (n : Nat) (l : List Char) (c : Char) (h : c ∈ l.take n) : c ∈ l :=
  List.mem_of_mem_take h

theorem sanitizedTopic_safe (topic : Option String) :
    (sanitizedTopic topic).data.all safeNameChar = true := by
  simp only [sanitizedTopic]
  by_cases h1 : (sanitizeTopicCore (jsOrStr topic "Untitled Meeting")).data.length = 0
  · rw [if_pos h1]
    have h2 : ¬(("Untitled Meeting" : String).data.length > 200) := by decide
    rw [if_neg h2]
    decide
  · rw [if_neg h1]
    by_cases h2 : (sanitizeTopicCore (jsOrStr topic "Untitled Meeting")).data.length > 200
    · rw [if_pos h2]
      rw [List.all_eq_true]
      intro c hcmem
      exact List.all_eq_true.mp (sanitize_safe _) c
        (mem_take 200 _ _ (mem_jsTrimList _ _ hcmem))
    · rw [if_neg h2]
      exact sanitize_safe _

/-- The placeholder cases of the sanitised topic. -/
theorem sanitizedTopic_placeholder (topic : Option String)
    (h : topic = none ∨ topic = some "" ∨
        sanitizeTopicCore (jsOrStr topic "Untitled Meeting") = "") :
    sanitizedTopic topic = "Untitled Meeting" := by
  have h0 : sanitizeTopicCore (jsOrStr topic "Untitled Meeting") = "" ∨
      jsOrStr topic "Untitled Meeting" = "Untitled Meeting" := by
    rcases h with h | h | h
    · right; rw [h]; rfl
    · right; rw [h]; rfl
    · left; exact h
  rcases h0 with h0 | h0
  · simp only [sanitizedTopic, h0]
    decide
  · simp only [sanitizedTopic, h0]
    decide

/- ## C8 — filename determinism and the worked example -/

/-- The example candidate of the specification scenario. -/
def q4rec : Recording :=
  { id := 123456789, uuid := "q4", topic := some "Q4 Planning: What's Next?",
    start_time := some "2025-12-10T14:30:00Z" }

/-- C8: filename derivation is a deterministic function of
`(topic, startTime)`; the candidate `{topic: "Q4 Planning: What's Next?",
startTime: "2025-12-10T14:30:00Z", id: 123456789}` yields
`Q4 Planning - Whats Next - 2025-12-10 1430.md`, and when a file already
exists at that path the writer produces the disambiguated variant
`Q4 Planning - Whats Next - 2025-12-10 1430 (123456789).md` containing the
numeric id. -/
theorem generateFileName_deterministic_and_example :
    (∀ r1 r2 : Recording, r1.topic = r2.topic → r1.start_time = r2.start_time →
        generateFileName r1 false = generateFileName r2 false) ∧
    generateFileName q4rec false = "Q4 Planning - Whats Next - 2025-12-10 1430.md" ∧
    resolveFileName q4rec
        (fun n => n = "Q4 Planning - Whats Next - 2025-12-10 1430.md") =
      "Q4 Planning - Whats Next - 2025-12-10 1430 (123456789).md" := by
  refine ⟨?_, by decide, by decide⟩
  intro r1 r2 h1 h2
  simp [generateFileName, h1, h2]

/-- Witness for C8: the determinism conjunct applied to two concrete
recordings that agree on topic and start time but differ in id. -/
theorem generateFileName_deterministic_witness :
    generateFileName
        { id := 1, uuid := "a", topic := some "Standup",
          start_time := some "2025-01-02T03:04:05Z" } false =
      generateFileName
        { id := 2, uuid := "b", topic := some "Standup",
          start_time := some "2025-01-02T03:04:05Z" } false :=
  generateFileName_deterministic_and_example.1 _ _ rfl rfl

/- ## C10 — filename safety for arbitrary topics and start times -/

/-- C10: for every recording (any topic, including missing, blank or
sanitising to empty, and any start time, including invalid) and either
disambiguation mode, `generateFileName` returns a name that contains none
of `/ \ : * ? " < > |`, ends in `.md`, and is based on the
`Untitled Meeting` placeholder when the topic is missing or reduces to the
empty string after sanitisation. -/
theorem generateFileName_safe (r : Recording) (includeId : Bool) :
    ((generateFileName r includeId).data.all safeNameChar = true) ∧
    (∃ base, generateFileName r includeId = base ++ ".md") ∧
    ((r.topic = none ∨ r.topic = some "" ∨
        sanitizeTopicCore (jsOrStr r.topic "Untitled Meeting") = "") →
      ∃ rest, generateFileName r includeId = "Untitled Meeting" ++ rest) := by
  refine ⟨?_, ?_, ?_⟩
  · cases includeId <;>
      by_cases hb : formatTimeForFilename r.start_time = "" <;>
        simp [generateFileName, hb, stringAll_append, sanitizedTopic_safe,
          natToDecimal_safe, formatTime_safe]
    all_goals decide
  · cases includeId <;> simp only [generateFileName]
    · exact ⟨_, rfl⟩
    · refine ⟨(if !(formatTimeForFilename r.start_time = "") then
          sanitizedTopic r.topic ++ " - " ++ formatTimeForFilename r.start_time
        else sanitizedTopic r.topic) ++ " (" ++ natToDecimal r.id ++ ")", ?_⟩
      have hlit : (")" : String) ++ ".md" = ").md" := rfl
      simp [String.append_assoc, hlit]
  · intro h
    have hs := sanitizedTopic_placeholder r.topic h
    cases includeId <;> by_cases hb : formatTimeForFilename r.start_time = ""
    · refine ⟨".md", ?_⟩
      simp [generateFileName, hs, hb, String.append_assoc]
    · refine ⟨" - " ++ (formatTimeForFilename r.start_time ++ ".md"), ?_⟩
      simp [generateFileName, hs, hb, String.append_assoc]
      rfl
    · refine ⟨" (" ++ (natToDecimal r.id ++ ").md"), ?_⟩
      simp [generateFileName, hs, hb, String.append_assoc]
      rfl
    · refine ⟨" - " ++ (formatTimeForFilename r.start_time ++
          (" (" ++ (natToDecimal r.id ++ ").md"))), ?_⟩
      simp [generateFileName, hs, hb, String.append_assoc]
      rfl

/-- Witness for C10: the placeholder conjunct applied to a topicless
recording with an invalid start time. -/
theorem generateFileName_safe_witness :
    ∃ rest,
      generateFileName
          { id := 7, uuid := "w", topic := none,
            start_time := some "not a date" } true =
        "Untitled Meeting" ++ rest :=
  (generateFileName_safe
      { id := 7, uuid := "w", topic := none, start_time := some "not a date" }
      true).2.2 (Or.inl rfl)

/- ## C9 — cue parsing and speaker attribution -/

theorem takeWhile_all_stop (p : α → Bool) (xs : List α) (y : α) (ys : List α)
    (hxs : ∀ x ∈ xs, p x = true) (hy : p y = false) :
    (xs ++ y :: ys).takeWhile p = xs := by
  induction xs with
  | nil => simp [List.takeWhile_cons, hy]
  | cons a t ih =>
    have ha : p a = true := hxs a (by simp)
    simp only [List.cons_append, List.takeWhile_cons, ha, if_true]
    rw [ih (fun x hx => hxs x (by simp [hx]))]

theorem dropWhile_all_stop (p : α → Bool) (xs : List α) (y : α) (ys : List α)
    (hxs : ∀ x ∈ xs, p x = true) (hy : p y = false) :
    (xs ++ y :: ys).dropWhile p = y :: ys := by
  induction xs with
  | nil => simp [List.dropWhile_cons, hy]
  | cons a t ih =>
    have ha : p a = true := hxs a (by simp)
    simp only [List.cons_append, List.dropWhile_cons, ha, if_true]
    exact ih (fun x hx => hxs x (by simp [hx]))

theorem parseVttAux_fuelIrrel :
    ∀ f g (l : List String), l.length < f → l.length < g →
      parseVttAux f l = parseVttAux g l := by
  intro f
  induction f with
  | zero => intro g l hf; omega
  | succ f ih =>
    intro g l hf hg
    match g, hg with
    | g + 1, hg =>
      match l with
      | [] => rfl
      | line :: rest =>
        rw [parseVttAux, parseVttAux]
        simp only [List.length_cons] at hf hg
        cases timestampLineMatch (jsTrim line).data with
        | none =>
          simp only
          exact ih g rest (by omega) (by omega)
        | some ts =>
          simp only
          have hlen : (rest.dropWhile (fun s => !(jsTrim s = ""))).length ≤ rest.length :=
            dropWhileLengthLe _ _
          have hlen2 :
              ((rest.dropWhile (fun s => !(jsTrim s = ""))).drop 1).length ≤ rest.length := by
            have := List.length_drop 1 (rest.dropWhile (fun s => !(jsTrim s = "")))
            omega
          rw [ih g _ (by omega) (by omega)]

/-- The scanning loop consumes one full cue block (cue-timing line,
dialogue lines, terminating blank line) and continues after it. -/
theorem parseVttLines_cue (tsLine ts : String) (dialogue rest : List String)
    (hts : timestampLineMatch (jsTrim tsLine).data = some ts)
    (hdia : ∀ s ∈ dialogue, ¬(jsTrim s = "")) :
    parseVttLines (tsLine :: (dialogue ++ "" :: rest)) =
      (if 0 < dialogue.length then
        [mkVttEntry ts (String.intercalate " " (dialogue.map jsTrim))]
      else []) ++ parseVttLines rest := by
  have hp : ∀ x ∈ dialogue, (fun s => !(jsTrim s = "")) x = true := by
    intro x hx
    have := hdia x hx
    simp [this]
  have hy : (fun s => !(jsTrim s = "")) "" = false := by decide
  rw [parseVttLines, List.length_cons, parseVttAux]
  rw [hts]
  simp only [takeWhile_all_stop _ _ _ _ hp hy, dropWhile_all_stop _ _ _ _ hp hy,
    List.drop_one, List.tail_cons]
  have hfuel :
      parseVttAux ((dialogue ++ "" :: rest).length + 1) rest = parseVttLines rest := by
    rw [parseVttLines]
    apply parseVttAux_fuelIrrel
    · simp only [List.length_append, List.length_cons]
      omega
    · omega
  rw [hfuel]
  by_cases hl : 0 < dialogue.length
  · have hl' : 0 < (dialogue.map jsTrim).length := by simpa using hl
    rw [if_pos hl', if_pos hl]
    rfl
  · have hl' : ¬(0 < (dialogue.map jsTrim).length) := by simpa using hl
    rw [if_neg hl', if_neg hl]
    rfl

/-- C9 counterexample: in a cue whose first dialogue line contains no
colon, the parser still splits at the first colon of the joined dialogue
(in a later line), so the block is not un-attributed as the claim, read
over the first dialogue line, requires. -/
theorem parseVtt_firstLine_counterexample :
    parseVtt "00:00:16.239 --> 00:00:27.079\nHello\nJohn Smith: hi" =
      [⟨"00:00:16", "Hello John Smith", "hi"⟩] ∧
    (parseVtt "00:00:16.239 --> 00:00:27.079\nHello\nJohn Smith: hi").map
        VttEntry.speaker ≠ [""] := by decide

/-- C9 (amended): the speaker split is decided on the joined dialogue of
the cue: a block is consumed as one entry; if the text before the first
colon of the joined dialogue is a plausible speaker (not a bare URL
scheme) and non-empty text follows the colon, the entry is split into
(speaker, text), otherwise the whole joined block is un-attributed; the
cue `00:00:16.239 --> 00:00:27.079` with `John Smith: Hello team.` parses
to {timestamp "00:00:16", speaker "John Smith", text "Hello team."} and
renders as `**00:00:16 - John Smith:**` newline `Hello team.`. -/
theorem parseVtt_speaker_split (tsLine ts : String) (dialogue rest : List String)
    (hts : timestampLineMatch (jsTrim tsLine).data = some ts)
    (hdia : ∀ s ∈ dialogue, ¬(jsTrim s = "")) :
    (parseVttLines (tsLine :: (dialogue ++ "" :: rest)) =
      (if 0 < dialogue.length then
        [mkVttEntry ts (String.intercalate " " (dialogue.map jsTrim))]
      else []) ++ parseVttLines rest) ∧
    (∀ full i, colonIndex full.data = some i → 0 < i →
      ¬(lowerStr (jsTrim ⟨full.data.take i⟩) = "http" ∨
        lowerStr (jsTrim ⟨full.data.take i⟩) = "https") →
      ¬(jsTrim ⟨full.data.drop (i + 1)⟩ = "") →
      mkVttEntry ts full =
        ⟨ts, jsTrim ⟨full.data.take i⟩, jsTrim ⟨full.data.drop (i + 1)⟩⟩) ∧
    (∀ full, colonIndex full.data = none → mkVttEntry ts full = ⟨ts, "", full⟩) ∧
    (∀ full i, colonIndex full.data = some i →
      (i = 0 ∨ lowerStr (jsTrim ⟨full.data.take i⟩) = "http" ∨
        lowerStr (jsTrim ⟨full.data.take i⟩) = "https" ∨
        jsTrim ⟨full.data.drop (i + 1)⟩ = "") →
      mkVttEntry ts full = ⟨ts, "", full⟩) ∧
    parseVtt "00:00:16.239 --> 00:00:27.079\nJohn Smith: Hello team." =
      [⟨"00:00:16", "John Smith", "Hello team."⟩] ∧
    formatVttEntries [⟨"00:00:16", "John Smith", "Hello team."⟩] =
      "**00:00:16 - John Smith:**\nHello team." := by
  refine ⟨parseVttLines_cue tsLine ts dialogue rest hts hdia, ?_, ?_, ?_, by decide, by decide⟩
  · intro full i hci hi hurl hac
    simp only [mkVttEntry, splitSpeaker, hci]
    rw [if_pos hi]
    rw [not_or] at hurl
    have hcond : (!(lowerStr (jsTrim ⟨full.data.take i⟩) = "http" ||
        lowerStr (jsTrim ⟨full.data.take i⟩) = "https") &&
        !(jsTrim ⟨full.data.drop (i + 1)⟩ = "") : Bool) = true := by
      simp [hurl.1, hurl.2, hac]
    rw [if_pos hcond]
  · intro full hci
    simp only [mkVttEntry, splitSpeaker, hci]
  · intro full i hci hfail
    simp only [mkVttEntry, splitSpeaker, hci]
    rcases hfail with h0 | hfail
    · subst h0
      rw [if_neg (by omega)]
    · have hcond : (!(lowerStr (jsTrim ⟨full.data.take i⟩) = "http" ||
          lowerStr (jsTrim ⟨full.data.take i⟩) = "https") &&
          !(jsTrim ⟨full.data.drop (i + 1)⟩ = "") : Bool) = false := by
        rcases hfail with h | h | h
        · simp [h]
        · simp [h]
        · simp [h]
      by_cases hi : 0 < i
      · rw [if_pos hi, if_neg (by rw [hcond]; exact Bool.false_ne_true)]
      · rw [if_neg hi]

/-- Witness for C9: the cue decomposition and split conjuncts applied to a
concrete two-cue document. -/
theorem parseVtt_speaker_split_witness :
    parseVttLines ("00:00:16.239 --> 00:00:27.079" ::
        (["John Smith: Hello team."] ++ "" :: ["junk"])) =
      (if 0 < (["John Smith: Hello team."] : List String).length then
        [mkVttEntry "00:00:16"
          (String.intercalate " " (["John Smith: Hello team."].map jsTrim))]
      else []) ++ parseVttLines ["junk"] :=
  (parseVtt_speaker_split "00:00:16.239 --> 00:00:27.079" "00:00:16"
    ["John Smith: Hello team."] ["junk"] (by decide) (by decide)).1

/- ## C3 — retry schedule of the transport layer -/

/-- The `Retry-After` value carried by a rate-limit error, when present, is
positive; `handleRateLimitedResponse` only stores positive values. -/
def posRetryAfter : ApiError → Prop
  | .rateLimit (some r) => 0 < r
  | _ => True

/-- The wait the retry layer incurs before the next attempt after error
`e`: the provider-specified rate-limit duration when present, otherwise the
fixed schedule entry. -/
def waitFor (e : ApiError) (fallback : Nat) : Nat :=
  match e with
  | .rateLimit (some r) => r
  | _ => fallback

theorem downloadLoop_zero (outcome : Nat → Except ApiError String) (attempt : Nat)
    (lastError : Option ApiError) (waits : List Nat) (used : Nat) :
    downloadLoop outcome 0 attempt lastError waits used =
      ⟨.error (lastError.getD (.plain "Download failed after retries")), waits, used⟩ :=
  rfl

theorem downloadLoop_succ (outcome : Nat → Except ApiError String) (fuel attempt : Nat)
    (lastError : Option ApiError) (waits : List Nat) (used : Nat) :
    downloadLoop outcome (fuel + 1) attempt lastError waits used =
      if attempt < MAX_ATTEMPTS then
        let waits' :=
          match lastError with
          | some e =>
            if attempt > 0 then
              let d := getRetryDelay e attempt BACKOFF_DELAYS
              if d > 0 then waits ++ [d] else waits
            else waits
          | none => waits
        match outcome attempt with
        | .ok v => ⟨.ok v, waits', used + 1⟩
        | .error e =>
          if !isRetryableError e then ⟨.error e, waits', used + 1⟩
          else if attempt = MAX_ATTEMPTS - 1 then ⟨.error e, waits', used + 1⟩
          else downloadLoop outcome fuel (attempt + 1) (some e) waits' (used + 1)
      else ⟨.error (lastError.getD (.plain "Download failed after retries")), waits, used⟩ :=
  rfl

theorem downloadLoop_attempts_le :
    ∀ fuel outcome attempt lastError waits used,
      (downloadLoop outcome fuel attempt lastError waits used).attemptsUsed ≤
        used + fuel := by
  intro fuel
  induction fuel with
  | zero =>
    intro outcome attempt lastError waits used
    rw [downloadLoop_zero]
    show used ≤ used + 0
    omega
  | succ f ih =>
    intro outcome attempt lastError waits used
    rw [downloadLoop_succ]
    by_cases ha : attempt < MAX_ATTEMPTS
    · rw [if_pos ha]
      simp only
      cases outcome attempt with
      | ok v =>
        show used + 1 ≤ used + (f + 1)
        omega
      | error e =>
        simp only
        by_cases hr : isRetryableError e = true
        · have hnr : ¬((!isRetryableError e) = true) := by simp [hr]
          rw [if_neg hnr]
          by_cases hlast : attempt = MAX_ATTEMPTS - 1
          · rw [if_pos hlast]
            show used + 1 ≤ used + (f + 1)
            omega
          · rw [if_neg hlast]
            calc (downloadLoop outcome f (attempt + 1) (some e) _ (used + 1)).attemptsUsed
                ≤ (used + 1) + f := ih outcome (attempt + 1) (some e) _ (used + 1)
              _ ≤ used + (f + 1) := by omega
        · have hnr : (!isRetryableError e) = true := by simp [hr]
          rw [if_pos hnr]
          show used + 1 ≤ used + (f + 1)
          omega
    · rw [if_neg ha]
      show used ≤ used + (f + 1)
      omega

theorem waitFor_pos (e : ApiError) (hp : posRetryAfter e) (fb : Nat) (hfb : 0 < fb) :
    0 < waitFor e fb := by
  cases e with
  | rateLimit r =>
    cases r with
    | none => exact hfb
    | some v => exact hp
  | plain m => exact hfb

theorem getRetryDelay_one (e : ApiError) :
    getRetryDelay e 1 BACKOFF_DELAYS = waitFor e 1000 := by
  cases e with
  | rateLimit r => cases r <;> rfl
  | plain m => rfl

theorem getRetryDelay_two (e : ApiError) :
    getRetryDelay e 2 BACKOFF_DELAYS = waitFor e 3000 := by
  cases e with
  | rateLimit r => cases r <;> rfl
  | plain m => rfl

/-- C3: every call through the retry layer makes at most three attempts;
a call that fails twice with a retryable error and succeeds on the third
attempt incurs exactly two waits — 1 s then 3 s, except that a rate-limit
error carrying a (positive) provider retry-after duration replaces the
following wait by that duration — and the successful result is returned
without an error. -/
theorem downloadTranscript_retrySchedule (outcome : Nat → Except ApiError String)
    (e0 e1 : ApiError) (v : String)
    (h0 : outcome 0 = .error e0) (h1 : outcome 1 = .error e1)
    (h2 : outcome 2 = .ok v)
    (hr0 : isRetryableError e0 = true) (hr1 : isRetryableError e1 = true)
    (hp0 : posRetryAfter e0) (hp1 : posRetryAfter e1) :
    (∀ oc, (downloadTranscriptRun oc).attemptsUsed ≤ MAX_ATTEMPTS) ∧
    downloadTranscriptRun outcome =
      ⟨.ok v, [waitFor e0 1000, waitFor e1 3000], 3⟩ := by
  constructor
  · intro oc
    exact downloadLoop_attempts_le MAX_ATTEMPTS oc 0 none [] 0
  · have hw0 : 0 < waitFor e0 1000 := waitFor_pos e0 hp0 1000 (by omega)
    have hw1 : 0 < waitFor e1 3000 := waitFor_pos e1 hp1 3000 (by omega)
    have hnr0 : ¬((!isRetryableError e0) = true) := by simp [hr0]
    have hnr1 : ¬((!isRetryableError e1) = true) := by simp [hr1]
    rw [downloadTranscriptRun]
    rw [show MAX_ATTEMPTS = 2 + 1 from rfl]
    rw [downloadLoop_succ]
    rw [if_pos (show (0 : Nat) < MAX_ATTEMPTS by decide)]
    simp only [h0]
    rw [if_neg hnr0]
    rw [if_neg (show ¬((0 : Nat) = MAX_ATTEMPTS - 1) by decide)]
    rw [show (2 : Nat) = 1 + 1 from rfl]
    rw [downloadLoop_succ]
    rw [if_pos (show (1 : Nat) < MAX_ATTEMPTS by decide)]
    simp only [h1, getRetryDelay_one, gt_iff_lt, if_pos hw0,
      (show (1 > 0) = True by simp), if_true, List.nil_append]
    rw [if_neg hnr1]
    rw [if_neg (show ¬((1 : Nat) = MAX_ATTEMPTS - 1) by decide)]
    rw [show (1 : Nat) = 0 + 1 from rfl]
    rw [downloadLoop_succ]
    rw [if_pos (show (0 + 1 + 1 : Nat) < MAX_ATTEMPTS by decide)]
    simp only [h2]
    rw [getRetryDelay_one, getRetryDelay_two]
    rw [if_pos hw1, if_pos hw0]
    rfl

/-- The outcome sequence of the witness run: a timeout, then a rate limit
carrying `Retry-After: 5s`, then success. -/
def witnessOutcome : Nat → Except ApiError String :=
  fun n =>
    if n = 0 then .error (.plain "Request timeout")
    else if n = 1 then .error (.rateLimit (some 5000)) else .ok "WEBVTT"

/-- Witness for C3 at a concrete outcome sequence: two waits, the second
overridden to the provider-supplied 5000 ms. -/
theorem downloadTranscript_retrySchedule_witness :
    (∀ oc, (downloadTranscriptRun oc).attemptsUsed ≤ MAX_ATTEMPTS) ∧
    downloadTranscriptRun witnessOutcome =
      ⟨.ok "WEBVTT", [waitFor (.plain "Request timeout") 1000,
        waitFor (.rateLimit (some 5000)) 3000], 3⟩ :=
  downloadTranscript_retrySchedule witnessOutcome
    (.plain "Request timeout") (.rateLimit (some 5000)) "WEBVTT"
    rfl rfl rfl (by decide) (by decide) (trivial) (show 0 < 5000 by omega)

/- ## C7 — discovery deduplication and transcript filtering -/

theorem containsMem (l : List String) (a : String) : l.contains a = true ↔ a ∈ l := by
  simp [List.contains, List.elem_iff]

theorem accumulate_invariant :
    ∀ (ms : List Recording) (seen : List String) (acc past : List Recording),
      seen = acc.map (fun r => r.uuid) →
      (acc.map (fun r => r.uuid)).Nodup →
      (∀ r ∈ acc, past.find? (fun m => m.uuid = r.uuid) = some r) →
      (∀ p ∈ past, p.uuid ∈ seen) →
      ((accumulateMeetings seen acc ms).2.map (fun r => r.uuid)).Nodup ∧
      (∀ r ∈ (accumulateMeetings seen acc ms).2,
        (past ++ ms).find? (fun m => m.uuid = r.uuid) = some r) := by
  intro ms
  induction ms with
  | nil =>
    intro seen acc past h1 h2 h3 _
    rw [accumulateMeetings]
    exact ⟨h2, fun r hr => by simpa using h3 r hr⟩
  | cons m rest ih =>
    intro seen acc past h1 h2 h3 h4
    rw [accumulateMeetings]
    by_cases hc : seen.contains m.uuid = true
    · rw [if_pos hc]
      have h3' : ∀ r ∈ acc, (past ++ [m]).find? (fun x => x.uuid = r.uuid) = some r := by
        intro r hr
        rw [List.find?_append, h3 r hr]
        rfl
      have h4' : ∀ p ∈ past ++ [m], p.uuid ∈ seen := by
        intro p hp
        rcases List.mem_append.mp hp with hp | hp
        · exact h4 p hp
        · rw [List.mem_singleton] at hp
          rw [hp]
          exact (containsMem seen m.uuid).mp hc
      have := ih seen acc (past ++ [m]) h1 h2 h3' h4'
      rwa [List.append_assoc, List.singleton_append] at this
    · rw [if_neg hc]
      have hnm : m.uuid ∉ seen := fun hmem => hc ((containsMem seen m.uuid).mpr hmem)
      have h1' : seen ++ [m.uuid] = (acc ++ [m]).map (fun r => r.uuid) := by
        rw [List.map_append, h1]
        simp
      have h2' : ((acc ++ [m]).map (fun r => r.uuid)).Nodup := by
        rw [List.map_append]
        rw [List.nodup_append]
        refine ⟨h2, by simp, ?_⟩
        intro u hu
        simp only [List.map_cons, List.map_nil, List.mem_singleton]
        intro he
        subst he
        rw [← h1] at hu
        exact hnm hu
      have hpastnone : past.find? (fun x => x.uuid = m.uuid) = none := by
        rw [List.find?_eq_none]
        intro p hp
        simp only [decide_eq_true_eq]
        intro he
        apply hnm
        rw [← he]
        exact h4 p hp
      have h3' : ∀ r ∈ acc ++ [m],
          (past ++ [m]).find? (fun x => x.uuid = r.uuid) = some r := by
        intro r hr
        rcases List.mem_append.mp hr with hr | hr
        · rw [List.find?_append, h3 r hr]
          rfl
        · rw [List.mem_singleton] at hr
          subst hr
          rw [List.find?_append, hpastnone]
          simp
      have h4' : ∀ p ∈ past ++ [m], p.uuid ∈ seen ++ [m.uuid] := by
        intro p hp
        rcases List.mem_append.mp hp with hp | hp
        · exact List.mem_append.mpr (Or.inl (h4 p hp))
        · rw [List.mem_singleton] at hp
          rw [hp]
          exact List.mem_append.mpr (Or.inr (by simp))
      have := ih (seen ++ [m.uuid]) (acc ++ [m]) (past ++ [m]) h1' h2' h3' h4'
      rwa [List.append_assoc, List.singleton_append] at this

theorem accumulate_append (xs ys : List Recording) :
    ∀ seen acc, accumulateMeetings seen acc (xs ++ ys) =
      accumulateMeetings (accumulateMeetings seen acc xs).1
        (accumulateMeetings seen acc xs).2 ys := by
  induction xs with
  | nil => intro seen acc; rfl
  | cons x t ih =>
    intro seen acc
    rw [List.cons_append, accumulateMeetings, accumulateMeetings]
    by_cases hc : seen.contains x.uuid = true
    · rw [if_pos hc, if_pos hc, ih]
    · rw [if_neg hc, if_neg hc, ih]

theorem foldl_accumulate_join (pages : List (List Recording)) :
    ∀ (init : List String × List Recording),
      pages.foldl (fun (st : List String × List Recording) page =>
        accumulateMeetings st.1 st.2 page) init =
      accumulateMeetings init.1 init.2 pages.join := by
  induction pages with
  | nil => intro init; rfl
  | cons page t ih =>
    intro init
    rw [List.foldl_cons, ih]
    rw [show (page :: t).join = page ++ t.join from rfl]
    rw [accumulate_append]

/-- C7: the recording list returned by discovery has pairwise-distinct
UUIDs; what is returned for a UUID is the first occurrence of that UUID in
page order; and every returned candidate has at least one transcript-typed
recording file (all others are discarded). -/
theorem listRecordings_dedup_and_filter (pages : List (List Recording)) :
    ((listRecordingsCore pages).map (fun r => r.uuid)).Nodup ∧
    (∀ r ∈ listRecordingsCore pages, hasTranscriptFile r = true) ∧
    (∀ r ∈ listRecordingsCore pages,
      pages.join.find? (fun m => m.uuid = r.uuid) = some r) := by
  have hinv := accumulate_invariant pages.join [] [] []
    (by simp) (by simp) (by simp) (by simp)
  rw [List.nil_append] at hinv
  have hcore : listRecordingsCore pages =
      ((accumulateMeetings [] [] pages.join).2).filter hasTranscriptFile := by
    rw [listRecordingsCore, foldl_accumulate_join]
  refine ⟨?_, ?_, ?_⟩
  · rw [hcore]
    exact hinv.1.sublist
      (List.Sublist.map (fun (r : Recording) => r.uuid) (List.filter_sublist _))
  · intro r hr
    rw [hcore] at hr
    exact (List.mem_filter.mp hr).2
  · intro r hr
    rw [hcore] at hr
    exact hinv.2 r (List.mem_filter.mp hr).1

/-- The first occurrence of UUID `u1`, used to witness C7. -/
def c7first : Recording :=
  { id := 1, uuid := "u1", recording_files := [⟨"audio_transcript", some "d1", none⟩] }

/-- Two pages sharing a recording UUID, used to witness C7. -/
def c7pages : List (List Recording) :=
  [[c7first],
   [{ id := 2, uuid := "u1", recording_files := [⟨"audio_transcript", some "d2", none⟩] },
    { id := 3, uuid := "u3", recording_files := [] }]]

/-- Witness for C7: in the concrete page list the candidate returned for
`u1` is the first occurrence (id 1, not id 2). -/
theorem listRecordings_dedup_and_filter_witness :
    c7pages.join.find? (fun (m : Recording) => m.uuid = c7first.uuid) = some c7first :=
  (listRecordings_dedup_and_filter c7pages).2.2 c7first (by decide)

/- ## C4 — authentication failure during discovery -/

/-- C4: when discovery fails with an authentication-classified error, the
run ends early having written no documents (no file creations), performed
no sync-state persistence (the state file is never written) and no state
mutation, with the cached token invalidated and automatic syncing
disabled. -/
theorem authFailure_on_discovery (env : Env) (s : Settings)
    (vault : List (String × String)) (state0 : List (String × SyncEntry)) (msg : String)
    (hs : s.fetchRecordingTranscripts = true)
    (he : env.listRecordingsResult = .error msg)
    (hc : classifyError msg = some .auth) :
    (runSync env s (mkRunState vault state0)).1.creates = [] ∧
    (runSync env s (mkRunState vault state0)).1.stateSaves = 0 ∧
    (runSync env s (mkRunState vault state0)).1.syncedMeetings = state0 ∧
    (runSync env s (mkRunState vault state0)).1.vault = vault ∧
    (runSync env s (mkRunState vault state0)).1.tokenCleared = true ∧
    (runSync env s (mkRunState vault state0)).1.autoSyncEnabled = false ∧
    (runSync env s (mkRunState vault state0)).2 = RunOutcome.earlyReturn := by
  have hrun : runSync env s (mkRunState vault state0) =
      ({ mkRunState vault state0 with
          tokenCleared := true, autoSyncEnabled := false }, .earlyReturn) := by
    rw [runSync]
    rw [if_neg (by rw [hs]; simp)]
    simp only [runSource1, hs, if_true, he, handleApiError, hc]
  rw [hrun]
  exact ⟨rfl, rfl, rfl, rfl, rfl, rfl, rfl⟩

/-- An environment whose discovery call is rejected with a 401, used to
witness C4. -/
def c4env : Env :=
  { now := 0, nowIso := "1970-01-01T00:00:00.000Z",
    listRecordingsResult := .error "Failed to list recordings: 401",
    downloadResult := fun _ => .ok "",
    listPastMeetingsResult := .ok [],
    meetingTranscriptResult := fun _ => .ok [],
    downloadDirectResult := fun _ => .ok "" }

/-- Witness for C4 on the concrete 401 environment. -/
theorem authFailure_on_discovery_witness :
    (runSync c4env ⟨true, false⟩ (mkRunState [] [])).1.creates = [] ∧
    (runSync c4env ⟨true, false⟩ (mkRunState [] [])).1.stateSaves = 0 ∧
    (runSync c4env ⟨true, false⟩ (mkRunState [] [])).1.syncedMeetings = [] ∧
    (runSync c4env ⟨true, false⟩ (mkRunState [] [])).1.vault = [] ∧
    (runSync c4env ⟨true, false⟩ (mkRunState [] [])).1.tokenCleared = true ∧
    (runSync c4env ⟨true, false⟩ (mkRunState [] [])).1.autoSyncEnabled = false ∧
    (runSync c4env ⟨true, false⟩ (mkRunState [] [])).2 = RunOutcome.earlyReturn :=
  authFailure_on_discovery c4env ⟨true, false⟩ [] []
    "Failed to list recordings: 401" rfl rfl (by decide)

/- ## C2 — already-synced ids are skipped before download -/

theorem objSet_keeps (m : List (String × SyncEntry)) (k' : String) (v : SyncEntry)
    (k : String) (h : isSyncedMap m k = true) :
    isSyncedMap (objSet m k' v) k = true := by
  rw [isSyncedMap, List.any_eq_true] at h
  obtain ⟨p, hp, hpk⟩ := h
  rw [decide_eq_true_eq] at hpk
  rw [objSet]
  by_cases hc : m.any (fun p => p.1 = k') = true
  · rw [if_pos hc, isSyncedMap, List.any_eq_true]
    by_cases hpk' : p.1 = k'
    · refine ⟨(k', v), List.mem_map.mpr ⟨p, hp, by rw [if_pos hpk']⟩, ?_⟩
      rw [decide_eq_true_eq, ← hpk', hpk]
    · refine ⟨p, List.mem_map.mpr ⟨p, hp, by rw [if_neg hpk']⟩, ?_⟩
      rw [decide_eq_true_eq, hpk]
  · rw [if_neg hc, isSyncedMap, List.any_eq_true]
    exact ⟨p, List.mem_append.mpr (Or.inl hp), by rw [decide_eq_true_eq, hpk]⟩

theorem handleApiError_frame (msg : String) (st : RunState) :
    (handleApiError msg st).2.syncedMeetings = st.syncedMeetings ∧
    (handleApiError msg st).2.downloads = st.downloads ∧
    (handleApiError msg st).2.creates = st.creates ∧
    (handleApiError msg st).2.vault = st.vault ∧
    (handleApiError msg st).2.stateSaves = st.stateSaves ∧
    (handleApiError msg st).2.failedCount = st.failedCount := by
  rw [handleApiError]
  cases classifyError msg with
  | none => exact ⟨rfl, rfl, rfl, rfl, rfl, rfl⟩
  | some c => cases c <;> exact ⟨rfl, rfl, rfl, rfl, rfl, rfl⟩

/-- The frame of one cloud-recording step: the traces only grow, every new
trace element carries this candidate's meeting id, nothing is added for an
already-synced candidate, and synced ids stay synced. -/
theorem processRecording_cases (env : Env) (st : RunState) (r : Recording) :
    ∃ dtail ctail,
      (processRecording env st r).1.downloads = st.downloads ++ dtail ∧
      (processRecording env st r).1.creates = st.creates ++ ctail ∧
      (∀ p ∈ dtail, p.1 = natToDecimal r.id) ∧
      (∀ p ∈ ctail, p.1 = natToDecimal r.id) ∧
      (isSyncedMap st.syncedMeetings (natToDecimal r.id) = true → dtail = [] ∧ ctail = []) ∧
      (∀ k, isSyncedMap st.syncedMeetings k = true →
        isSyncedMap (processRecording env st r).1.syncedMeetings k = true) := by
  rw [processRecording]
  by_cases hsync : isSyncedMap st.syncedMeetings (natToDecimal r.id) = true
  · rw [if_pos hsync]
    exact ⟨[], [], by simp, by simp, by simp, by simp, by simp, fun _ hk => hk⟩
  · rw [if_neg hsync]
    cases hfind : r.recording_files.find? (fun f => f.recording_type = "audio_transcript") with
    | none =>
      simp only [hfind]
      exact ⟨[], [], by simp, by simp, by simp, by simp, by simp, fun _ hk => hk⟩
    | some transcriptFile =>
      simp only [hfind]
      by_cases hurl : strTruthy transcriptFile.download_url = true
      · have hurl' : (!strTruthy transcriptFile.download_url) = false := by
          rw [hurl]; rfl
        rw [if_neg (by rw [hurl']; exact Bool.false_ne_true)]
        cases hdl : env.downloadResult (transcriptFile.download_url.getD "") with
        | error msg =>
          simp only [hdl]
          have hframe := handleApiError_frame msg
            { st with
              processedUuids := st.processedUuids ++ [r.uuid]
              downloads := st.downloads ++
                [(natToDecimal r.id, transcriptFile.download_url.getD "")] }
          by_cases hstop : (handleApiError msg
              { st with
                processedUuids := st.processedUuids ++ [r.uuid]
                downloads := st.downloads ++
                  [(natToDecimal r.id, transcriptFile.download_url.getD "")] }).1 = true
          · rw [if_pos hstop]
            refine ⟨[(natToDecimal r.id, transcriptFile.download_url.getD "")], [],
              ?_, ?_, by simp, by simp, by simp [hsync], ?_⟩
            · rw [hframe.2.1]
            · rw [hframe.2.2.1]; simp
            · intro k hk
              rw [hframe.1]
              exact hk
          · rw [if_neg hstop]
            refine ⟨[(natToDecimal r.id, transcriptFile.download_url.getD "")], [],
              ?_, ?_, by simp, by simp, by simp [hsync], ?_⟩
            · rw [show ({ (handleApiError msg _).2 with
                  failedCount := (handleApiError msg _).2.failedCount + 1 } :
                    RunState).downloads = (handleApiError msg _).2.downloads from rfl]
              rw [hframe.2.1]
            · rw [show ({ (handleApiError msg _).2 with
                  failedCount := (handleApiError msg _).2.failedCount + 1 } :
                    RunState).creates = (handleApiError msg _).2.creates from rfl]
              rw [hframe.2.2.1]; simp
            · intro k hk
              rw [show ({ (handleApiError msg _).2 with
                  failedCount := (handleApiError msg _).2.failedCount + 1 } :
                    RunState).syncedMeetings = (handleApiError msg _).2.syncedMeetings from rfl]
              rw [hframe.1]
              exact hk
        | ok vttContent =>
          simp only [hdl]
          rw [commitDocument]
          by_cases hexist : fileExistsIn st.vault
              (if fileExistsIn st.vault (generateFileName r false) then
                generateFileName r true else generateFileName r false) = true
          · refine ⟨[(natToDecimal r.id, transcriptFile.download_url.getD "")], [],
              by simp, ?_, by simp, by simp, by simp [hsync], ?_⟩
            · simp only [hexist, Bool.not_true, Bool.false_eq_true, if_false]
              simp
            · intro k hk
              exact objSet_keeps _ _ _ _ hk
          · refine ⟨[(natToDecimal r.id, transcriptFile.download_url.getD "")],
              [(natToDecimal r.id,
                if fileExistsIn st.vault (generateFileName r false) then
                  generateFileName r true else generateFileName r false)],
              by simp, ?_, by simp, by simp, by simp [hsync], ?_⟩
            · have hexist' : (!fileExistsIn st.vault
                  (if fileExistsIn st.vault (generateFileName r false) then
                    generateFileName r true else generateFileName r false)) = true := by
                simp only [Bool.not_eq_true'] at hexist ⊢
                revert hexist
                cases fileExistsIn st.vault
                    (if fileExistsIn st.vault (generateFileName r false) then
                      generateFileName r true else generateFileName r false) <;> simp
              simp only [hexist', if_true]
            · intro k hk
              exact objSet_keeps _ _ _ _ hk
      · have hurl' : (!strTruthy transcriptFile.download_url) = true := by
          simp only [Bool.not_eq_true] at hurl
          rw [hurl]; rfl
        rw [if_pos hurl']
        exact ⟨[], [], by simp, by simp, by simp, by simp, by simp, fun _ hk => hk⟩

/-- The frame of one AI-companion step, mirroring `processRecording_cases`. -/
theorem processPastMeeting_cases (env : Env) (st : RunState) (m : PastMeeting) :
    ∃ dtail ctail,
      (processPastMeeting env st m).1.downloads = st.downloads ++ dtail ∧
      (processPastMeeting env st m).1.creates = st.creates ++ ctail ∧
      (∀ p ∈ dtail, p.1 = natToDecimal m.id) ∧
      (∀ p ∈ ctail, p.1 = natToDecimal m.id) ∧
      (isSyncedMap st.syncedMeetings (natToDecimal m.id) = true → dtail = [] ∧ ctail = []) ∧
      (∀ k, isSyncedMap st.syncedMeetings k = true →
        isSyncedMap (processPastMeeting env st m).1.syncedMeetings k = true) := by
  rw [processPastMeeting]
  by_cases hpro : st.processedUuids.contains m.uuid = true
  · rw [if_pos hpro]
    exact ⟨[], [], by simp, by simp, by simp, by simp, by simp, fun _ hk => hk⟩
  · rw [if_neg hpro]
    by_cases hsync : isSyncedMap st.syncedMeetings (natToDecimal m.id) = true
    · rw [if_pos hsync]
      exact ⟨[], [], by simp, by simp, by simp, by simp, by simp, fun _ hk => hk⟩
    · rw [if_neg hsync]
      cases hlk : env.meetingTranscriptResult m.uuid with
      | error msg =>
        simp only [hlk]
        by_cases h1 : (strIncludes msg "401" || strIncludes msg "403" ||
            strIncludes msg "404") = true
        · rw [if_pos h1]
          exact ⟨[], [], by simp, by simp, by simp, by simp, by simp, fun _ hk => hk⟩
        · rw [if_neg h1]
          by_cases h2 : strIncludes msg "404" = true
          · rw [if_pos h2]
            exact ⟨[], [], by simp, by simp, by simp, by simp, by simp, fun _ hk => hk⟩
          · rw [if_neg h2]
            exact ⟨[], [], by simp, by simp, by simp, by simp, by simp, fun _ hk => hk⟩
      | ok transcripts =>
        simp only [hlk]
        by_cases hemp : transcripts.isEmpty = true
        · rw [if_pos hemp]
          exact ⟨[], [], by simp, by simp, by simp, by simp, by simp, fun _ hk => hk⟩
        · rw [if_neg hemp]
          cases hfind : transcripts.find?
              (fun t => t.can_download && strTruthy t.download_url) with
          | none =>
            simp only [hfind]
            exact ⟨[], [], by simp, by simp, by simp, by simp, by simp, fun _ hk => hk⟩
          | some transcript =>
            simp only [hfind]
            cases hdl : env.downloadDirectResult (transcript.download_url.getD "") with
            | error msg =>
              simp only [hdl]
              by_cases h1 : (strIncludes msg "401" || strIncludes msg "403") = true
              · rw [if_pos h1]
                exact ⟨[(natToDecimal m.id, transcript.download_url.getD "")], [],
                  by simp, by simp, by simp, by simp, by simp [hsync], fun _ hk => hk⟩
              · rw [if_neg h1]
                have hframe := handleApiError_frame msg
                  { st with downloads := st.downloads ++
                      [(natToDecimal m.id, transcript.download_url.getD "")] }
                by_cases hstop : (handleApiError msg
                    { st with downloads := st.downloads ++
                        [(natToDecimal m.id, transcript.download_url.getD "")] }).1 = true
                · rw [if_pos hstop]
                  refine ⟨[(natToDecimal m.id, transcript.download_url.getD "")], [],
                    ?_, ?_, by simp, by simp, by simp [hsync], ?_⟩
                  · rw [hframe.2.1]
                  · rw [hframe.2.2.1]; simp
                  · intro k hk
                    rw [hframe.1]
                    exact hk
                · rw [if_neg hstop]
                  by_cases h2 : strIncludes msg "404" = true
                  · rw [if_pos h2]
                    refine ⟨[(natToDecimal m.id, transcript.download_url.getD "")], [],
                      ?_, ?_, by simp, by simp, by simp [hsync], ?_⟩
                    · rw [hframe.2.1]
                    · rw [hframe.2.2.1]; simp
                    · intro k hk
                      rw [hframe.1]
                      exact hk
                  · rw [if_neg h2]
                    refine ⟨[(natToDecimal m.id, transcript.download_url.getD "")], [],
                      ?_, ?_, by simp, by simp, by simp [hsync], ?_⟩
                    · rw [show ({ (handleApiError msg _).2 with
                          failedCount := (handleApiError msg _).2.failedCount + 1 } :
                            RunState).downloads = (handleApiError msg _).2.downloads from rfl]
                      rw [hframe.2.1]
                    · rw [show ({ (handleApiError msg _).2 with
                          failedCount := (handleApiError msg _).2.failedCount + 1 } :
                            RunState).creates = (handleApiError msg _).2.creates from rfl]
                      rw [hframe.2.2.1]; simp
                    · intro k hk
                      rw [show ({ (handleApiError msg _).2 with
                          failedCount := (handleApiError msg _).2.failedCount + 1 } :
                            RunState).syncedMeetings =
                          (handleApiError msg _).2.syncedMeetings from rfl]
                      rw [hframe.1]
                      exact hk
            | ok transcriptContent =>
              simp only [hdl]
              rw [commitDocument]
              by_cases hexist : fileExistsIn st.vault
                  (if fileExistsIn st.vault
                      (generateFileName (pseudoRecording m transcript) false) then
                    generateFileName (pseudoRecording m transcript) true
                  else generateFileName (pseudoRecording m transcript) false) = true
              · refine ⟨[(natToDecimal m.id, transcript.download_url.getD "")], [],
                  by simp, ?_, by simp, by simp, by simp [hsync], ?_⟩
                · simp only [hexist, Bool.not_true, Bool.false_eq_true, if_false]
                  simp
                · intro k hk
                  exact objSet_keeps _ _ _ _ hk
              · refine ⟨[(natToDecimal m.id, transcript.download_url.getD "")],
                  [(natToDecimal m.id,
                    if fileExistsIn st.vault
                        (generateFileName (pseudoRecording m transcript) false) then
                      generateFileName (pseudoRecording m transcript) true
                    else generateFileName (pseudoRecording m transcript) false)],
                  by simp, ?_, by simp, by simp, by simp [hsync], ?_⟩
                · have hexist' : (!fileExistsIn st.vault
                      (if fileExistsIn st.vault
                          (generateFileName (pseudoRecording m transcript) false) then
                        generateFileName (pseudoRecording m transcript) true
                      else generateFileName (pseudoRecording m transcript) false)) = true := by
                    simp only [Bool.not_eq_true'] at hexist ⊢
                    revert hexist
                    cases fileExistsIn st.vault
                        (if fileExistsIn st.vault
                            (generateFileName (pseudoRecording m transcript) false) then
                          generateFileName (pseudoRecording m transcript) true
                        else generateFileName (pseudoRecording m transcript) false) <;> simp
                  simp only [hexist', if_true]
                · intro k hk
                  exact objSet_keeps _ _ _ _ hk

theorem runLoop1_traces (env : Env) :
    ∀ (rs : List Recording) (st : RunState) (k : String),
      isSyncedMap st.syncedMeetings k = true →
      isSyncedMap (runLoop1 env st rs).1.syncedMeetings k = true ∧
      (∀ p ∈ (runLoop1 env st rs).1.downloads, p ∈ st.downloads ∨ ¬(p.1 = k)) ∧
      (∀ p ∈ (runLoop1 env st rs).1.creates, p ∈ st.creates ∨ ¬(p.1 = k)) := by
  intro rs
  induction rs with
  | nil =>
    intro st k hk
    rw [runLoop1]
    exact ⟨hk, fun p hp => Or.inl hp, fun p hp => Or.inl hp⟩
  | cons r rest ih =>
    intro st k hk
    rw [runLoop1]
    obtain ⟨dtail, ctail, hd, hc2, hdk, hck, hempty, hpres⟩ := processRecording_cases env st r
    have hk' := hpres k hk
    have hdl : ∀ p ∈ (processRecording env st r).1.downloads,
        p ∈ st.downloads ∨ ¬(p.1 = k) := by
      intro p hp
      rw [hd] at hp
      rcases List.mem_append.mp hp with h | h
      · exact Or.inl h
      · right
        intro heq
        have hmid : isSyncedMap st.syncedMeetings (natToDecimal r.id) = true := by
          rw [← hdk p h, heq]
          exact hk
        rw [(hempty hmid).1] at h
        simp at h
    have hcl : ∀ p ∈ (processRecording env st r).1.creates,
        p ∈ st.creates ∨ ¬(p.1 = k) := by
      intro p hp
      rw [hc2] at hp
      rcases List.mem_append.mp hp with h | h
      · exact Or.inl h
      · right
        intro heq
        have hmid : isSyncedMap st.syncedMeetings (natToDecimal r.id) = true := by
          rw [← hck p h, heq]
          exact hk
        rw [(hempty hmid).2] at h
        simp at h
    rcases hres : processRecording env st r with ⟨st', stop⟩
    rw [hres] at hk' hdl hcl
    cases stop with
    | true =>
      simp only [hres]
      exact ⟨hk', hdl, hcl⟩
    | false =>
      simp only [hres]
      obtain ⟨ih1, ih2, ih3⟩ := ih st' k hk'
      refine ⟨ih1, ?_, ?_⟩
      · intro p hp
        rcases ih2 p hp with h | h
        · exact hdl p h
        · exact Or.inr h
      · intro p hp
        rcases ih3 p hp with h | h
        · exact hcl p h
        · exact Or.inr h

theorem runLoop2_traces (env : Env) :
    ∀ (ms : List PastMeeting) (st : RunState) (k : String),
      isSyncedMap st.syncedMeetings k = true →
      isSyncedMap (runLoop2 env st ms).1.syncedMeetings k = true ∧
      (∀ p ∈ (runLoop2 env st ms).1.downloads, p ∈ st.downloads ∨ ¬(p.1 = k)) ∧
      (∀ p ∈ (runLoop2 env st ms).1.creates, p ∈ st.creates ∨ ¬(p.1 = k)) := by
  intro ms
  induction ms with
  | nil =>
    intro st k hk
    rw [runLoop2]
    exact ⟨hk, fun p hp => Or.inl hp, fun p hp => Or.inl hp⟩
  | cons m rest ih =>
    intro st k hk
    rw [runLoop2]
    obtain ⟨dtail, ctail, hd, hc2, hdk, hck, hempty, hpres⟩ := processPastMeeting_cases env st m
    have hk' := hpres k hk
    have hdl : ∀ p ∈ (processPastMeeting env st m).1.downloads,
        p ∈ st.downloads ∨ ¬(p.1 = k) := by
      intro p hp
      rw [hd] at hp
      rcases List.mem_append.mp hp with h | h
      · exact Or.inl h
      · right
        intro heq
        have hmid : isSyncedMap st.syncedMeetings (natToDecimal m.id) = true := by
          rw [← hdk p h, heq]
          exact hk
        rw [(hempty hmid).1] at h
        simp at h
    have hcl : ∀ p ∈ (processPastMeeting env st m).1.creates,
        p ∈ st.creates ∨ ¬(p.1 = k) := by
      intro p hp
      rw [hc2] at hp
      rcases List.mem_append.mp hp with h | h
      · exact Or.inl h
      · right
        intro heq
        have hmid : isSyncedMap st.syncedMeetings (natToDecimal m.id) = true := by
          rw [← hck p h, heq]
          exact hk
        rw [(hempty hmid).2] at h
        simp at h
    rcases hres : processPastMeeting env st m with ⟨st', stop⟩
    rw [hres] at hk' hdl hcl
    cases stop with
    | true =>
      simp only [hres]
      exact ⟨hk', hdl, hcl⟩
    | false =>
      simp only [hres]
      obtain ⟨ih1, ih2, ih3⟩ := ih st' k hk'
      refine ⟨ih1, ?_, ?_⟩
      · intro p hp
        rcases ih2 p hp with h | h
        · exact hdl p h
        · exact Or.inr h
      · intro p hp
        rcases ih3 p hp with h | h
        · exact hcl p h
        · exact Or.inr h

theorem runSource1_traces (env : Env) (s : Settings) (st : RunState) (k : String)
    (hk : isSyncedMap st.syncedMeetings k = true) :
    isSyncedMap (runSource1 env s st).1.syncedMeetings k = true ∧
    (∀ p ∈ (runSource1 env s st).1.downloads, p ∈ st.downloads ∨ ¬(p.1 = k)) ∧
    (∀ p ∈ (runSource1 env s st).1.creates, p ∈ st.creates ∨ ¬(p.1 = k)) := by
  rw [runSource1]
  by_cases hf : s.fetchRecordingTranscripts = true
  · rw [if_pos hf]
    cases hlr : env.listRecordingsResult with
    | error msg =>
      simp only
      have hframe := handleApiError_frame msg st
      refine ⟨?_, ?_, ?_⟩
      · rw [hframe.1]; exact hk
      · intro p hp
        rw [hframe.2.1] at hp
        exact Or.inl hp
      · intro p hp
        rw [hframe.2.2.1] at hp
        exact Or.inl hp
    | ok recordings =>
      simp only
      obtain ⟨h1, h2, h3⟩ := runLoop1_traces env recordings st k hk
      rcases hres : runLoop1 env st recordings with ⟨st', stop⟩
      rw [hres] at h1 h2 h3
      cases stop <;> simp only [hres] <;> exact ⟨h1, h2, h3⟩
  · rw [if_neg hf]
    exact ⟨hk, fun p hp => Or.inl hp, fun p hp => Or.inl hp⟩

theorem runSource2_traces (env : Env) (s : Settings) (st : RunState) (k : String)
    (hk : isSyncedMap st.syncedMeetings k = true) :
    isSyncedMap (runSource2 env s st).1.syncedMeetings k = true ∧
    (∀ p ∈ (runSource2 env s st).1.downloads, p ∈ st.downloads ∨ ¬(p.1 = k)) ∧
    (∀ p ∈ (runSource2 env s st).1.creates, p ∈ st.creates ∨ ¬(p.1 = k)) := by
  rw [runSource2]
  by_cases hf : s.fetchAICompanionTranscripts = true
  · rw [if_pos hf]
    cases hlr : env.listPastMeetingsResult with
    | error msg =>
      simp only
      have hframe := handleApiError_frame msg st
      by_cases hstop : (handleApiError msg st).1 = true
      · rw [if_pos hstop]
        simp only
        refine ⟨?_, ?_, ?_⟩
        · rw [hframe.1]; exact hk
        · intro p hp
          rw [hframe.2.1] at hp
          exact Or.inl hp
        · intro p hp
          rw [hframe.2.2.1] at hp
          exact Or.inl hp
      · rw [if_neg hstop]
        simp only [runLoop2]
        refine ⟨?_, ?_, ?_⟩
        · rw [hframe.1]; exact hk
        · intro p hp
          rw [hframe.2.1] at hp
          exact Or.inl hp
        · intro p hp
          rw [hframe.2.2.1] at hp
          exact Or.inl hp
    | ok ms =>
      simp only
      obtain ⟨h1, h2, h3⟩ := runLoop2_traces env ms st k hk
      rcases hres : runLoop2 env st ms with ⟨st', stop⟩
      rw [hres] at h1 h2 h3
      cases stop <;> simp only [hres] <;> exact ⟨h1, h2, h3⟩
  · rw [if_neg hf]
    exact ⟨hk, fun p hp => Or.inl hp, fun p hp => Or.inl hp⟩

theorem runSync_traces (env : Env) (s : Settings) (init : RunState) (k : String)
    (hk : isSyncedMap init.syncedMeetings k = true) :
    (∀ p ∈ (runSync env s init).1.downloads, p ∈ init.downloads ∨ ¬(p.1 = k)) ∧
    (∀ p ∈ (runSync env s init).1.creates, p ∈ init.creates ∨ ¬(p.1 = k)) := by
  rw [runSync]
  by_cases hguard : (!s.fetchRecordingTranscripts && !s.fetchAICompanionTranscripts) = true
  · rw [if_pos hguard]
    exact ⟨fun p hp => Or.inl hp, fun p hp => Or.inl hp⟩
  · rw [if_neg hguard]
    obtain ⟨s1sync, s1dl, s1cr⟩ := runSource1_traces env s init k hk
    rcases h1 : runSource1 env s init with ⟨st1, out1⟩
    rw [h1] at s1sync s1dl s1cr
    cases out1 with
    | some o =>
      simp only [h1]
      exact ⟨s1dl, s1cr⟩
    | none =>
      simp only [h1]
      obtain ⟨s2sync, s2dl, s2cr⟩ := runSource2_traces env s st1 k s1sync
      rcases h2 : runSource2 env s st1 with ⟨st2, out2⟩
      rw [h2] at s2sync s2dl s2cr
      have comp : ∀ p ∈ st2.downloads, p ∈ init.downloads ∨ ¬(p.1 = k) := by
        intro p hp
        rcases s2dl p hp with h | h
        · exact s1dl p h
        · exact Or.inr h
      have compc : ∀ p ∈ st2.creates, p ∈ init.creates ∨ ¬(p.1 = k) := by
        intro p hp
        rcases s2cr p hp with h | h
        · exact s1cr p h
        · exact Or.inr h
      cases out2 <;> simp only [h2] <;> exact ⟨comp, compc⟩

/-- C2: for every recording id already present in the loaded sync state,
a run performs no transcript download and no document creation for that
candidate — it is skipped before the download step. -/
theorem synced_id_never_redownloaded (env : Env) (s : Settings)
    (vault : List (String × String)) (state0 : List (String × SyncEntry))
    (meetingId : String)
    (h : isSyncedMap state0 meetingId = true) :
    (∀ p ∈ (runSync env s (mkRunState vault state0)).1.downloads, ¬(p.1 = meetingId)) ∧
    (∀ p ∈ (runSync env s (mkRunState vault state0)).1.creates, ¬(p.1 = meetingId)) := by
  obtain ⟨hd, hc⟩ := runSync_traces env s (mkRunState vault state0) meetingId h
  refine ⟨?_, ?_⟩
  · intro p hp
    rcases hd p hp with habs | hne
    · exact absurd habs (by simp [mkRunState])
    · exact hne
  · intro p hp
    rcases hc p hp with habs | hne
    · exact absurd habs (by simp [mkRunState])
    · exact hne

/-- An environment with one recording whose id is already synced, used to
witness C2. -/
def c2env : Env :=
  { now := 5, nowIso := "2025-01-01T00:00:00.000Z",
    listRecordingsResult := .ok
      [{ id := 42, uuid := "u42",
         recording_files := [⟨"audio_transcript", some "https://dl/42", none⟩] }],
    downloadResult := fun _ => .ok "WEBVTT",
    listPastMeetingsResult := .ok [],
    meetingTranscriptResult := fun _ => .ok [],
    downloadDirectResult := fun _ => .ok "" }

/-- Witness for C2: with id 42 already in the state, the run records no
download tagged 42. -/
theorem synced_id_never_redownloaded_witness :
    (runSync c2env ⟨true, false⟩
        (mkRunState [] [("42", ⟨1, "old.md"⟩)])).1.downloads.all
      (fun p => !(p.1 = "42")) = true := by
  rw [List.all_eq_true]
  intro p hp
  have h := (synced_id_never_redownloaded c2env ⟨true, false⟩ [] [("42", ⟨1, "old.md"⟩)]
    "42" (by decide)).1 p hp
  simpa using h

/- ## C5 — 404-class failures and the failure count -/

/-- One cloud recording whose transcript download is rejected with 404,
used for the C5 counterexample. -/
def c5env : Env :=
  { now := 0, nowIso := "1970-01-01T00:00:00.000Z",
    listRecordingsResult := .ok
      [{ id := 7, uuid := "u7",
         recording_files := [⟨"audio_transcript", some "https://dl/7", none⟩] }],
    downloadResult := fun _ => .error "Failed to download transcript: 404",
    listPastMeetingsResult := .ok [],
    meetingTranscriptResult := fun _ => .ok [],
    downloadDirectResult := fun _ => .ok "" }

/-- C5 counterexample: in the cloud-recording source, a 404 download
failure on an individual item does increment the reported failure count
(the run completes with failedCount 1, not 0). -/
theorem recording404_counts_as_failure :
    (runSync c5env ⟨true, false⟩ (mkRunState [] [])).1.failedCount = 1 ∧
    (runSync c5env ⟨true, false⟩ (mkRunState [] [])).2 = RunOutcome.completed := by
  decide

/-- C5 (amended, AI-companion source): a meeting whose transcript lookup
fails with a message containing `404` is skipped as an expected absence:
the loop state — including the failure count and the traces — is left
completely unchanged and processing continues. -/
theorem ai404_not_counted (env : Env) (st : RunState) (ms : List PastMeeting)
    (h404 : ∀ m ∈ ms, ∃ msg, env.meetingTranscriptResult m.uuid = .error msg ∧
      strIncludes msg "404" = true)
    (hfresh : ∀ m ∈ ms, isSyncedMap st.syncedMeetings (natToDecimal m.id) = false) :
    runLoop2 env st ms = (st, false) := by
  induction ms with
  | nil => rw [runLoop2]
  | cons m rest ih =>
    rw [runLoop2]
    have hstep : processPastMeeting env st m = (st, false) := by
      rw [processPastMeeting]
      by_cases hpro : st.processedUuids.contains m.uuid = true
      · rw [if_pos hpro]
      · rw [if_neg hpro]
        rw [if_neg (by rw [hfresh m (by simp)]; exact Bool.false_ne_true)]
        obtain ⟨msg, hmsg, h404m⟩ := h404 m (by simp)
        simp only [hmsg]
        rw [if_pos (by rw [h404m]; simp)]
    simp only [hstep]
    exact ih (fun x hx => h404 x (by simp [hx])) (fun x hx => hfresh x (by simp [hx]))

/-- An environment whose transcript lookup responds 404, used to witness
the amended C5. -/
def c5wenv : Env :=
  { now := 0, nowIso := "1970-01-01T00:00:00.000Z",
    listRecordingsResult := .ok [],
    downloadResult := fun _ => .ok "",
    listPastMeetingsResult := .ok [{ id := 9, uuid := "u9" }],
    meetingTranscriptResult := fun _ => .error "Transcript not found: 404",
    downloadDirectResult := fun _ => .ok "" }

/-- Witness for the amended C5 at one concrete 404-answering meeting. -/
theorem ai404_not_counted_witness :
    runLoop2 c5wenv (mkRunState [] []) [{ id := 9, uuid := "u9" }] =
      (mkRunState [] [], false) :=
  ai404_not_counted c5wenv (mkRunState [] []) [{ id := 9, uuid := "u9" }]
    (fun m _ => ⟨"Transcript not found: 404", rfl, by decide⟩)
    (fun m hm => by
      rw [List.mem_singleton] at hm
      rw [hm]
      decide)

/- ## C1 — partial-failure isolation in the cloud-recording source -/

/-- The transcript download URL the orchestrator would use for a
candidate: the `download_url` of its first `audio_transcript` file, when
present and truthy. -/
def transcriptUrl (r : Recording) : Option String :=
  match r.recording_files.find? (fun f => f.recording_type = "audio_transcript") with
  | none => none
  | some tf => if strTruthy tf.download_url then some (tf.download_url.getD "") else none

/-- Does the candidate's transcript download fail in this environment? -/
def downloadFails (env : Env) (r : Recording) : Bool :=
  match transcriptUrl r with
  | none => false
  | some url =>
    match env.downloadResult url with
    | .error _ => true
    | .ok _ => false

/-- Does the candidate's transcript download succeed in this environment? -/
def downloadSucceeds (env : Env) (r : Recording) : Bool :=
  match transcriptUrl r with
  | none => false
  | some url =>
    match env.downloadResult url with
    | .ok _ => true
    | .error _ => false

theorem objSet_of_not_synced (m : List (String × SyncEntry)) (k : String)
    (v : SyncEntry) (h : isSyncedMap m k = false) :
    objSet m k v = m ++ [(k, v)] := by
  rw [objSet, if_neg]
  rw [isSyncedMap] at h
  rw [h]
  exact Bool.false_ne_true

theorem objSet_mem_of_mem (m : List (String × SyncEntry)) (k : String)
    (v : SyncEntry) (p : String × SyncEntry) (hp : p ∈ m)
    (h : isSyncedMap m k = false) : p ∈ objSet m k v := by
  rw [objSet_of_not_synced m k v h]
  exact List.mem_append.mpr (Or.inl hp)

theorem objSet_keys_bound (m : List (String × SyncEntry)) (k' : String)
    (v : SyncEntry) (k : String)
    (h : isSyncedMap (objSet m k' v) k = true) :
    isSyncedMap m k = true ∨ k = k' := by
  rw [objSet] at h
  by_cases hc : m.any (fun p => p.1 = k') = true
  · rw [if_pos hc] at h
    rw [isSyncedMap, List.any_eq_true] at h
    obtain ⟨q, hq, hqk⟩ := h
    rw [decide_eq_true_eq] at hqk
    obtain ⟨p, hp, hpq⟩ := List.mem_map.mp hq
    by_cases hpk : p.1 = k'
    · rw [if_pos hpk] at hpq
      right
      rw [← hqk, ← hpq]
    · rw [if_neg hpk] at hpq
      left
      rw [isSyncedMap, List.any_eq_true]
      exact ⟨p, hp, by rw [decide_eq_true_eq, hpq, hqk]⟩
  · rw [if_neg hc] at h
    rw [isSyncedMap, List.any_eq_true] at h
    obtain ⟨q, hq, hqk⟩ := h
    rw [decide_eq_true_eq] at hqk
    rcases List.mem_append.mp hq with hq | hq
    · left
      rw [isSyncedMap, List.any_eq_true]
      exact ⟨q, hq, by rw [decide_eq_true_eq, hqk]⟩
    · right
      rw [List.mem_singleton] at hq
      rw [← hqk, hq]

theorem fileExistsIn_append (v : List (String × String)) (q : String × String)
    (fn : String) (h : fileExistsIn v fn = true) :
    fileExistsIn (v ++ [q]) fn = true := by
  rw [fileExistsIn, List.any_eq_true] at h ⊢
  obtain ⟨p, hp, hpk⟩ := h
  exact ⟨p, List.mem_append.mpr (Or.inl hp), hpk⟩

theorem writeToVault_mono (v : List (String × String)) (fn' content fn : String)
    (h : fileExistsIn v fn = true) :
    fileExistsIn (writeToVault v fn' content) fn = true := by
  rw [writeToVault]
  by_cases hc : fileExistsIn v fn' = true
  · rw [if_pos hc]; exact h
  · rw [if_neg hc]
    exact fileExistsIn_append v _ fn h

theorem writeToVault_self (v : List (String × String)) (fn content : String) :
    fileExistsIn (writeToVault v fn content) fn = true := by
  rw [writeToVault]
  by_cases hc : fileExistsIn v fn = true
  · rw [if_pos hc]; exact hc
  · rw [if_neg hc]
    rw [fileExistsIn, List.any_eq_true]
    exact ⟨(fn, content), List.mem_append.mpr (Or.inr (by simp)), by simp⟩

/-- The behaviour of one cloud-recording step on a fresh candidate whose
download failures are unclassified: the run never stops, the failure count
grows exactly when the download fails, synced keys grow only by this
candidate's id, the vault and the state entries are preserved, and on
success the candidate's resolved file exists and its id is recorded. -/
theorem processRecording_run (env : Env) (st : RunState) (r : Recording)
    (hfresh : isSyncedMap st.syncedMeetings (natToDecimal r.id) = false)
    (hclass : ∀ url msg, transcriptUrl r = some url →
      env.downloadResult url = .error msg → classifyError msg = none) :
    (processRecording env st r).2 = false ∧
    (processRecording env st r).1.failedCount =
      st.failedCount + (if downloadFails env r = true then 1 else 0) ∧
    (∀ k, isSyncedMap (processRecording env st r).1.syncedMeetings k = true →
      isSyncedMap st.syncedMeetings k = true ∨ k = natToDecimal r.id) ∧
    (∀ fn, fileExistsIn st.vault fn = true →
      fileExistsIn (processRecording env st r).1.vault fn = true) ∧
    (∀ p ∈ st.syncedMeetings, p ∈ (processRecording env st r).1.syncedMeetings) ∧
    (downloadSucceeds env r = true →
      ∃ fn, (fn = generateFileName r false ∨ fn = generateFileName r true) ∧
        fileExistsIn (processRecording env st r).1.vault fn = true ∧
        ∃ e : SyncEntry, (natToDecimal r.id, e) ∈
          (processRecording env st r).1.syncedMeetings ∧ e.fileName = fn) := by
  rw [processRecording]
  rw [if_neg (by rw [hfresh]; exact Bool.false_ne_true)]
  cases hfind : r.recording_files.find? (fun f => f.recording_type = "audio_transcript") with
  | none =>
    simp only [hfind]
    have hdf : downloadFails env r = false := by
      simp [downloadFails, transcriptUrl, hfind]
    have hds : downloadSucceeds env r = false := by
      simp [downloadSucceeds, transcriptUrl, hfind]
    refine ⟨by simp, by rw [hdf]; simp, fun k hk => Or.inl hk, fun fn h => h,
      fun p hp => hp, ?_⟩
    intro h
    rw [hds] at h
    exact absurd h Bool.false_ne_true
  | some tf =>
    simp only [hfind]
    by_cases hurl : strTruthy tf.download_url = true
    · have hurl' : (!strTruthy tf.download_url) = false := by rw [hurl]; rfl
      have hneg : ¬((!strTruthy tf.download_url) = true) := by
        rw [hurl']
        exact Bool.false_ne_true
      rw [if_neg hneg]
      have hturl : transcriptUrl r = some (tf.download_url.getD "") := by
        simp [transcriptUrl, hfind, hurl]
      cases hdl : env.downloadResult (tf.download_url.getD "") with
      | error msg =>
        simp only [hdl]
        have hcls := hclass (tf.download_url.getD "") msg hturl hdl
        have hstop : handleApiError msg
            { st with
              processedUuids := st.processedUuids ++ [r.uuid]
              downloads := st.downloads ++
                [(natToDecimal r.id, tf.download_url.getD "")] } =
            (false, { st with
              processedUuids := st.processedUuids ++ [r.uuid]
              downloads := st.downloads ++
                [(natToDecimal r.id, tf.download_url.getD "")] }) := by
          rw [handleApiError, hcls]
        rw [hstop]
        simp only [Bool.false_eq_true, if_false]
        have hdf : downloadFails env r = true := by
          simp [downloadFails, hturl, hdl]
        refine ⟨by simp, by rw [hdf]; simp, fun k hk => Or.inl hk, fun fn h => h,
          fun p hp => hp, ?_⟩
        intro h
        simp [downloadSucceeds, hturl, hdl] at h
      | ok vttContent =>
        simp only [hdl]
        rw [commitDocument]
        have hdf : downloadFails env r = false := by
          simp [downloadFails, hturl, hdl]
        have hds : downloadSucceeds env r = true := by
          simp [downloadSucceeds, hturl, hdl]
        refine ⟨by simp, by rw [hdf]; simp, ?_, ?_, ?_, ?_⟩
        · intro k hk
          exact objSet_keys_bound _ _ _ _ hk
        · intro fn h
          exact writeToVault_mono _ _ _ _ h
        · intro p hp
          exact objSet_mem_of_mem _ _ _ _ hp hfresh
        · intro _
          by_cases hex : fileExistsIn st.vault (generateFileName r false) = true
          · refine ⟨generateFileName r true, Or.inr rfl, ?_,
              ⟨env.now, generateFileName r true⟩, ?_, rfl⟩
            · simp only [hex, if_true]
              exact writeToVault_self _ _ _
            · simp only [hex, if_true]
              rw [objSet_of_not_synced _ _ _ hfresh]
              exact List.mem_append.mpr (Or.inr (by simp))
          · have hex' : fileExistsIn st.vault (generateFileName r false) = false := by
              revert hex
              cases fileExistsIn st.vault (generateFileName r false) <;> simp
            refine ⟨generateFileName r false, Or.inl rfl, ?_,
              ⟨env.now, generateFileName r false⟩, ?_, rfl⟩
            · simp only [hex', Bool.false_eq_true, if_false]
              exact writeToVault_self _ _ _
            · simp only [hex', Bool.false_eq_true, if_false]
              rw [objSet_of_not_synced _ _ _ hfresh]
              exact List.mem_append.mpr (Or.inr (by simp))
    · have hurl' : (!strTruthy tf.download_url) = true := by
        simp only [Bool.not_eq_true] at hurl
        rw [hurl]; rfl
      rw [if_pos hurl']
      have hnu : strTruthy tf.download_url = false := by
        simp only [Bool.not_eq_true] at hurl
        exact hurl
      have hdf : downloadFails env r = false := by
        simp [downloadFails, transcriptUrl, hfind, hnu]
      have hds : downloadSucceeds env r = false := by
        simp [downloadSucceeds, transcriptUrl, hfind, hnu]
      refine ⟨by simp, by rw [hdf]; simp, fun k hk => Or.inl hk, fun fn h => h,
        fun p hp => hp, ?_⟩
      intro h
      rw [hds] at h
      exact absurd h Bool.false_ne_true

/-- The cloud-recording loop over fresh candidates with pairwise-distinct
ids whose download failures are all unclassified: the run never stops, the
failure count grows by exactly the number of failing candidates, the vault
and state entries are preserved, and every successfully downloading
candidate ends up written (under its plain or disambiguated name) and
recorded in the state. -/
theorem runLoop1_run (env : Env) :
    ∀ (rs : List Recording) (st : RunState),
      (rs.map (fun r => natToDecimal r.id)).Nodup →
      (∀ r ∈ rs, isSyncedMap st.syncedMeetings (natToDecimal r.id) = false) →
      (∀ r ∈ rs, ∀ url msg, transcriptUrl r = some url →
        env.downloadResult url = .error msg → classifyError msg = none) →
      (runLoop1 env st rs).2 = false ∧
      (runLoop1 env st rs).1.failedCount =
        st.failedCount + (rs.filter (fun r => downloadFails env r)).length ∧
      (∀ fn, fileExistsIn st.vault fn = true →
        fileExistsIn (runLoop1 env st rs).1.vault fn = true) ∧
      (∀ p ∈ st.syncedMeetings, p ∈ (runLoop1 env st rs).1.syncedMeetings) ∧
      (∀ r ∈ rs, downloadSucceeds env r = true →
        ∃ fn, (fn = generateFileName r false ∨ fn = generateFileName r true) ∧
          fileExistsIn (runLoop1 env st rs).1.vault fn = true ∧
          ∃ e : SyncEntry,
            (natToDecimal r.id, e) ∈ (runLoop1 env st rs).1.syncedMeetings ∧
            e.fileName = fn) := by
  intro rs
  induction rs with
  | nil =>
    intro st _ _ _
    rw [runLoop1]
    exact ⟨rfl, by simp, fun fn h => h, fun p hp => hp, by simp⟩
  | cons r rest ih =>
    intro st hnodup hfresh hclass
    rw [runLoop1]
    obtain ⟨hstop, hfail, hkeys, hvault, hentries, hsucc⟩ :=
      processRecording_run env st r (hfresh r (by simp)) (hclass r (by simp))
    rcases hres : processRecording env st r with ⟨st', stop⟩
    rw [hres] at hstop hfail hkeys hvault hentries hsucc
    have hstop' : stop = false := hstop
    subst hstop'
    simp only [hres]
    have hfresh' : ∀ x ∈ rest,
        isSyncedMap st'.syncedMeetings (natToDecimal x.id) = false := by
      intro x hx
      cases hsx : isSyncedMap st'.syncedMeetings (natToDecimal x.id) with
      | false => rfl
      | true =>
        rcases hkeys _ hsx with h | h
        · rw [hfresh x (by simp [hx])] at h
          exact absurd h Bool.false_ne_true
        · rw [List.map_cons, List.nodup_cons] at hnodup
          exact absurd (h ▸ List.mem_map.mpr ⟨x, hx, rfl⟩) hnodup.1
    have hnodup' : (rest.map (fun x => natToDecimal x.id)).Nodup := by
      rw [List.map_cons, List.nodup_cons] at hnodup
      exact hnodup.2
    obtain ⟨ih1, ih2, ih3, ih4, ih5⟩ := ih st' hnodup' hfresh'
      (fun x hx => hclass x (by simp [hx]))
    refine ⟨ih1, ?_, ?_, ?_, ?_⟩
    · rw [ih2, hfail, List.filter_cons]
      by_cases hdf : downloadFails env r = true
      · rw [if_pos (by rw [hdf])]
        rw [if_pos hdf]
        simp only [List.length_cons]
        omega
      · have hdf' : downloadFails env r = false := by
          revert hdf
          cases downloadFails env r <;> simp
        rw [if_neg (by rw [hdf']; exact Bool.false_ne_true)]
        rw [if_neg (by rw [hdf']; exact Bool.false_ne_true)]
        omega
    · intro fn h
      exact ih3 fn (hvault fn h)
    · intro p hp
      exact ih4 p (hentries p hp)
    · intro x hx hsx
      have hx' : x = r ∨ x ∈ rest := by simpa using hx
      rcases hx' with rfl | hx'
      · obtain ⟨fn, hfn, hvx, e, hme, hef⟩ := hsucc hsx
        exact ⟨fn, hfn, ih3 fn hvx, e, ih4 _ hme, hef⟩
      · exact ih5 x hx' hsx

/-- C1 (amended): in a run over the cloud-recording source, for fresh
candidates with pairwise-distinct meeting ids whose download failures are
all classified as none of authentication, rate-limit or network: the run
completes (no early stop), the reported failure count equals exactly the
number of candidates whose download fails, and every candidate whose
download succeeds is written to the vault (under its plain or
disambiguated name) and recorded in the sync state. -/
theorem partial_failure_isolation (env : Env)
    (vault : List (String × String)) (state0 : List (String × SyncEntry))
    (recs : List Recording)
    (henv : env.listRecordingsResult = .ok recs)
    (hnodup : (recs.map (fun r => natToDecimal r.id)).Nodup)
    (hfresh : ∀ r ∈ recs, isSyncedMap state0 (natToDecimal r.id) = false)
    (hclass : ∀ r ∈ recs, ∀ url msg, transcriptUrl r = some url →
      env.downloadResult url = .error msg → classifyError msg = none) :
    (runSync env ⟨true, false⟩ (mkRunState vault state0)).2 = RunOutcome.completed ∧
    (runSync env ⟨true, false⟩ (mkRunState vault state0)).1.failedCount =
      (recs.filter (fun r => downloadFails env r)).length ∧
    (∀ r ∈ recs, downloadSucceeds env r = true →
      ∃ fn, (fn = generateFileName r false ∨ fn = generateFileName r true) ∧
        fileExistsIn (runSync env ⟨true, false⟩ (mkRunState vault state0)).1.vault fn =
          true ∧
        ∃ e : SyncEntry, (natToDecimal r.id, e) ∈
          (runSync env ⟨true, false⟩ (mkRunState vault state0)).1.syncedMeetings ∧
          e.fileName = fn) := by
  obtain ⟨l1, l2, l3, l4, l5⟩ :=
    runLoop1_run env recs (mkRunState vault state0) hnodup hfresh hclass
  rcases hres : runLoop1 env (mkRunState vault state0) recs with ⟨st1, stop⟩
  rw [hres] at l1 l2 l3 l4 l5
  have hstop : stop = false := l1
  subst hstop
  have hs1 : runSource1 env ⟨true, false⟩ (mkRunState vault state0) = (st1, none) := by
    rw [runSource1]
    rw [if_pos rfl]
    simp only [henv, hres]
  have hs2 : runSource2 env ⟨true, false⟩ st1 = (st1, none) := by
    rw [runSource2]
    rw [if_neg (by exact Bool.false_ne_true)]
  have hrun : runSync env ⟨true, false⟩ (mkRunState vault state0) =
      (st1, .completed) := by
    rw [runSync]
    rw [if_neg (by decide)]
    simp only [hs1, hs2]
  rw [hrun]
  refine ⟨rfl, ?_, ?_⟩
  · rw [l2]
    exact Nat.zero_add _
  · intro r hr hsr
    exact l5 r hr hsr

/-- Two candidates, the first of which times out at download, used for the
C1 counterexample. -/
def c1env : Env :=
  { now := 0, nowIso := "1970-01-01T00:00:00.000Z",
    listRecordingsResult := .ok
      [{ id := 1, uuid := "ua",
         recording_files := [⟨"audio_transcript", some "https://dl/a", none⟩] },
       { id := 2, uuid := "ub",
         recording_files := [⟨"audio_transcript", some "https://dl/b", none⟩] }],
    downloadResult := fun u =>
      if u = "https://dl/a" then .error "Request timeout" else .ok "WEBVTT",
    listPastMeetingsResult := .ok [],
    meetingTranscriptResult := fun _ => .ok [],
    downloadDirectResult := fun _ => .ok "" }

/-- C1 counterexample: a per-item failure that is neither authentication-
nor rate-limit-classified (a network timeout) stops the whole run: the
failure count stays 0 (the claim requires 1) and the other candidate is
neither written nor marked synced. -/
theorem network_failure_not_isolated :
    (runSync c1env ⟨true, false⟩ (mkRunState [] [])).1.failedCount = 0 ∧
    (runSync c1env ⟨true, false⟩ (mkRunState [] [])).2 = RunOutcome.earlyReturn ∧
    (runSync c1env ⟨true, false⟩ (mkRunState [] [])).1.creates = [] ∧
    isSyncedMap (runSync c1env ⟨true, false⟩ (mkRunState [] [])).1.syncedMeetings
      "2" = false := by
  decide

/-- The two candidates of the C1 witness run: a 500 failure, then a
success. -/
def c1wrecs : List Recording :=
  [{ id := 1, uuid := "ua",
     recording_files := [⟨"audio_transcript", some "https://dl/a", none⟩] },
   { id := 2, uuid := "ub",
     recording_files := [⟨"audio_transcript", some "https://dl/b", none⟩] }]

/-- The C1 witness environment: candidate 1 fails with an unclassified 500,
candidate 2 succeeds. -/
def c1wenv : Env :=
  { now := 0, nowIso := "1970-01-01T00:00:00.000Z",
    listRecordingsResult := .ok c1wrecs,
    downloadResult := fun u =>
      if u = "https://dl/a" then .error "Failed to download transcript: 500"
      else .ok "WEBVTT",
    listPastMeetingsResult := .ok [],
    meetingTranscriptResult := fun _ => .ok [],
    downloadDirectResult := fun _ => .ok "" }

/-- Witness for the amended C1 on the concrete two-candidate run. -/
theorem partial_failure_isolation_witness :
    (runSync c1wenv ⟨true, false⟩ (mkRunState [] [])).2 = RunOutcome.completed ∧
    (runSync c1wenv ⟨true, false⟩ (mkRunState [] [])).1.failedCount =
      (c1wrecs.filter (fun r => downloadFails c1wenv r)).length ∧
    (∀ r ∈ c1wrecs, downloadSucceeds c1wenv r = true →
      ∃ fn, (fn = generateFileName r false ∨ fn = generateFileName r true) ∧
        fileExistsIn (runSync c1wenv ⟨true, false⟩ (mkRunState [] [])).1.vault fn =
          true ∧
        ∃ e : SyncEntry, (natToDecimal r.id, e) ∈
          (runSync c1wenv ⟨true, false⟩ (mkRunState [] [])).1.syncedMeetings ∧
          e.fileName = fn) :=
  partial_failure_isolation c1wenv [] [] c1wrecs rfl (by decide)
    (fun r hr => rfl)
    (by
      intro r hr url msg h1 h2
      have hr' : r = c1wrecs.get ⟨0, by decide⟩ ∨ r = c1wrecs.get ⟨1, by decide⟩ := by
        simpa [c1wrecs] using hr
      rcases hr' with rfl | rfl
      · have ht : transcriptUrl (c1wrecs.get ⟨0, by decide⟩) = some "https://dl/a" := by
          decide
        rw [ht] at h1
        have hu : url = "https://dl/a" := by
          injection h1 with h
          exact h.symm
        subst hu
        have h2' : (Except.error "Failed to download transcript: 500" :
            Except String String) = .error msg := h2
        have hm : msg = "Failed to download transcript: 500" := by
          injection h2' with h
          exact h.symm
        subst hm
        decide
      · have ht : transcriptUrl (c1wrecs.get ⟨1, by decide⟩) = some "https://dl/b" := by
          decide
        rw [ht] at h1
        have hu : url = "https://dl/b" := by
          injection h1 with h
          exact h.symm
        subst hu
        have h2' : (Except.ok "WEBVTT" : Except String String) = .error msg := h2
        exact absurd h2' (by simp))

/- ## Round-trip lemmas for the persisted state (C6) -/

theorem skipJsonWs_cons_of_ws (c : Char) (l : List Char) (h : isJsonWs c = true) :
    skipJsonWs (c :: l) = skipJsonWs l := by
  simp [skipJsonWs, List.dropWhile_cons, h]

theorem skipJsonWs_cons_of_not (c : Char) (l : List Char) (h : isJsonWs c = false) :
    skipJsonWs (c :: l) = c :: l := by
  simp [skipJsonWs, List.dropWhile_cons, h]

theorem skipJsonWs_append_ws (pre l : List Char) (h : pre.all isJsonWs = true) :
    skipJsonWs (pre ++ l) = skipJsonWs l := by
  induction pre with
  | nil => rfl
  | cons c t ih =>
    rw [List.all_cons, Bool.and_eq_true] at h
    rw [List.cons_append, skipJsonWs_cons_of_ws c _ h.1, ih h.2]

theorem skipJsonWs_idem (l : List Char) : skipJsonWs (skipJsonWs l) = skipJsonWs l := by
  induction l with
  | nil => rfl
  | cons c t ih =>
    by_cases h : isJsonWs c = true
    · rw [skipJsonWs_cons_of_ws c t h]
      exact ih
    · have h' : isJsonWs c = false := by
        revert h
        cases isJsonWs c <;> simp
      rw [skipJsonWs_cons_of_not c t h', skipJsonWs_cons_of_not c t h']

theorem skipJsonWs_append_of_drop (lit X : List Char) (c : Char) (t : List Char)
    (h : lit.dropWhile isJsonWs = c :: t) :
    skipJsonWs (lit ++ X) = c :: (t ++ X) := by
  induction lit with
  | nil => simp at h
  | cons a l ih =>
    by_cases ha : isJsonWs a = true
    · rw [List.cons_append, skipJsonWs_cons_of_ws _ _ ha]
      apply ih
      rw [List.dropWhile_cons] at h
      simpa [ha] using h
    · have ha' : isJsonWs a = false := by
        revert ha
        cases isJsonWs a <;> simp
      rw [List.dropWhile_cons] at h
      rw [ha'] at h
      simp only [Bool.false_eq_true, if_false] at h
      rw [List.cons_append, skipJsonWs_cons_of_not _ _ ha']
      rw [List.cons.injEq] at h
      rw [h.1, h.2]

theorem parseExact_append (l rest : List Char) : parseExact l (l ++ rest) = some rest := by
  induction l with
  | nil => rfl
  | cons c t ih => simp [parseExact, ih]

theorem parseExact_cons_self (c : Char) (Y : List Char) :
    parseExact [c] (c :: Y) = some Y := by
  have h := parseExact_append [c] Y
  rwa [List.singleton_append] at h

theorem digitChar_props {d : Nat} (h : d < 10) :
    (digitChar d).isDigit = true ∧ isJsonWs (digitChar d) = false ∧ dv (digitChar d) = d := by
  interval_cases d <;> refine ⟨by decide, by decide, by decide⟩

theorem natDigitsAux_props :
    ∀ fuel n, (natDigitsAux fuel n).all (fun c => c.isDigit && !isJsonWs c) = true := by
  intro fuel
  induction fuel with
  | zero => intro n; rfl
  | succ f ih =>
    intro n
    rw [natDigitsAux]
    by_cases h : n < 10
    · rw [if_pos h]
      obtain ⟨h1, h2, _⟩ := digitChar_props h
      simp [h1, h2]
    · rw [if_neg h]
      have hm : n % 10 < 10 := Nat.mod_lt _ (by omega)
      obtain ⟨h1, h2, _⟩ := digitChar_props hm
      simp [List.all_append, ih (n / 10), h1, h2]

theorem natDigitsAux_ne_nil (fuel n : Nat) : natDigitsAux (fuel + 1) n ≠ [] := by
  rw [natDigitsAux]
  by_cases h : n < 10
  · rw [if_pos h]
    exact List.cons_ne_nil _ _
  · rw [if_neg h]
    simp

theorem foldl_natDigitsAux : ∀ fuel n, n < fuel → ∀ acc,
    (natDigitsAux fuel n).foldl (fun a c => a * 10 + dv c) acc
      = acc * 10 ^ (natDigitsAux fuel n).length + n := by
  intro fuel
  induction fuel with
  | zero => intro n h; omega
  | succ f ih =>
    intro n hn acc
    rw [natDigitsAux]
    by_cases h : n < 10
    · rw [if_pos h]
      simp [(digitChar_props h).2.2]
    · rw [if_neg h]
      have hlt : n / 10 < f := by
        have := Nat.div_lt_self (by omega : 0 < n) (by omega : 1 < 10)
        omega
      rw [List.foldl_append]
      simp only [List.foldl_cons, List.foldl_nil]
      have hm : n % 10 < 10 := Nat.mod_lt _ (by omega)
      rw [ih (n / 10) hlt acc, (digitChar_props hm).2.2]
      rw [List.length_append, List.length_cons, List.length_nil]
      have hd : 10 * (n / 10) + n % 10 = n := Nat.div_add_mod n 10
      rw [pow_succ]
      ring_nf
      omega

theorem parseNatAux_go : ∀ (ds : List Char), ds.all Char.isDigit = true →
    ∀ (acc : Nat) (c : Char) (r : List Char), c.isDigit = false →
    parseNatAux acc (ds ++ c :: r)
      = (ds.foldl (fun a x => a * 10 + dv x) acc, c :: r) := by
  intro ds
  induction ds with
  | nil =>
    intro _ acc c r hc
    simp [parseNatAux, hc]
  | cons d t ih =>
    intro hall acc c r hc
    rw [List.all_cons, Bool.and_eq_true] at hall
    rw [List.cons_append]
    simp [parseNatAux, hall.1, ih hall.2 _ _ _ hc]

theorem parseJsonNat_decimal (v : Nat) (c : Char) (r : List Char) (hc : c.isDigit = false) :
    parseJsonNat ((natToDecimal v).data ++ c :: r) = some (v, c :: r) := by
  have hall := natDigitsAux_props (v + 1) v
  have hne := natDigitsAux_ne_nil v v
  have hv := foldl_natDigitsAux (v + 1) v (by omega) 0
  show parseJsonNat (natDigitsAux (v + 1) v ++ c :: r) = some (v, c :: r)
  simp only [List.all_eq_true, Bool.and_eq_true] at hall
  cases hds : natDigitsAux (v + 1) v with
  | nil => exact absurd hds hne
  | cons d t =>
    rw [hds] at hall hv
    have hd : d.isDigit = true := (hall d (by simp)).1
    have ht : t.all Char.isDigit = true := by
      rw [List.all_eq_true]
      intro x hx
      exact (hall x (by simp [hx])).1
    rw [List.cons_append]
    have he : parseJsonNat (d :: (t ++ c :: r))
        = if d.isDigit then some (parseNatAux (dv d) (t ++ c :: r)) else none := rfl
    rw [he, if_pos hd, parseNatAux_go t ht (dv d) c r hc]
    rw [List.foldl_cons] at hv
    simp only [Nat.zero_mul, Nat.zero_add] at hv
    rw [hv]

theorem parseStringBody_escape : ∀ (l acc r : List Char),
    parseStringBody acc (l.flatMap escF ++ '"' :: r) = some (⟨acc.reverse ++ l⟩, r) := by
  intro l
  induction l with
  | nil =>
    intro acc r
    simp only [List.flatMap_nil, List.nil_append, List.append_nil]
    unfold parseStringBody
    simp
  | cons c t ih =>
    intro acc r
    rw [List.flatMap_cons]
    by_cases h1 : c = '"'
    · subst h1
      rw [show escF '"' = ['\\', '"'] from rfl]
      rw [List.append_assoc, List.cons_append, List.singleton_append]
      unfold parseStringBody
      simp [ih]
    · by_cases h2 : c = '\\'
      · subst h2
        rw [show escF '\\' = ['\\', '\\'] from rfl]
        rw [List.append_assoc, List.cons_append, List.singleton_append]
        unfold parseStringBody
        simp [ih]
      · rw [show escF c = [c] from by rw [escF, if_neg h1, if_neg h2]]
        rw [List.append_assoc, List.singleton_append]
        unfold parseStringBody
        simp [h1, h2, ih]

theorem parseJsonString_quote (s : String) (r : List Char) :
    parseJsonString ((quoteJson s).data ++ r) = some (s, r) := by
  have e : (quoteJson s).data ++ r = '"' :: (s.data.flatMap escF ++ '"' :: r) := by
    show ('"' :: (escapeJsonChars s ++ ['"'])) ++ r = _
    rw [List.cons_append, List.append_assoc, List.singleton_append]
    rfl
  rw [e]
  show parseStringBody [] (s.data.flatMap escF ++ '"' :: r) = _
  rw [parseStringBody_escape]
  rfl

theorem skipJsonWs_decimal (v : Nat) (X : List Char) :
    skipJsonWs ((natToDecimal v).data ++ X) = (natToDecimal v).data ++ X := by
  have hall := natDigitsAux_props (v + 1) v
  have hne := natDigitsAux_ne_nil v v
  simp only [List.all_eq_true, Bool.and_eq_true] at hall
  show skipJsonWs (natDigitsAux (v + 1) v ++ X) = natDigitsAux (v + 1) v ++ X
  cases hds : natDigitsAux (v + 1) v with
  | nil => exact absurd hds hne
  | cons d t =>
    rw [hds] at hall
    have hd : isJsonWs d = false := by
      have h2 := (hall d (by simp)).2
      revert h2
      cases isJsonWs d <;> simp
    rw [List.cons_append]
    exact skipJsonWs_cons_of_not _ _ hd

theorem skipJsonWs_quote (s : String) (X : List Char) :
    skipJsonWs ((quoteJson s).data ++ X) = (quoteJson s).data ++ X := by
  have e : (quoteJson s).data ++ X = '"' :: (escapeJsonChars s ++ ['"'] ++ X) := by
    show ('"' :: (escapeJsonChars s ++ ['"'])) ++ X = _
    rw [List.cons_append]
  rw [e]
  exact skipJsonWs_cons_of_not _ _ (by decide)

theorem parseEntryObj_render (e : SyncEntry) (r : List Char) :
    parseEntryObj (" \x7b\n      \"syncedAt\": ".data ++ ((natToDecimal e.syncedAt).data ++
        (",\n      \"fileName\": ".data ++ ((quoteJson e.fileName).data ++
          ("\n    \x7d".data ++ r)))))
      = some (e, r) := by
  simp only [parseEntryObj]
  rw [skipJsonWs_append_of_drop _ _ '{' ("\n      \"syncedAt\": ".data) (by decide)]
  rw [parseExact_cons_self]
  simp only [Option.bind_eq_bind, Option.some_bind]
  rw [skipJsonWs_append_of_drop _ _ '"' ("syncedAt\": ".data) (by decide)]
  have rv : ∀ X : List Char,
      ('"' :: ("syncedAt\": ".data ++ X)) = "\"syncedAt\"".data ++ (": ".data ++ X) :=
    fun X => rfl
  rw [rv, parseExact_append]
  simp only [Option.bind_eq_bind, Option.some_bind]
  rw [skipJsonWs_append_of_drop _ _ ':' [' '] (by decide)]
  rw [parseExact_cons_self]
  simp only [Option.bind_eq_bind, Option.some_bind]
  rw [skipJsonWs_append_ws [' '] _ (by decide)]
  rw [skipJsonWs_decimal]
  have rc : ∀ X : List Char,
      (",\n      \"fileName\": ".data ++ X) = ',' :: ("\n      \"fileName\": ".data ++ X) :=
    fun X => rfl
  rw [rc, parseJsonNat_decimal _ ',' _ (by decide)]
  simp only [Option.bind_eq_bind, Option.some_bind]
  rw [skipJsonWs_cons_of_not _ _ (by decide)]
  rw [parseExact_cons_self]
  simp only [Option.bind_eq_bind, Option.some_bind]
  rw [skipJsonWs_append_of_drop _ _ '"' ("fileName\": ".data) (by decide)]
  have rf : ∀ X : List Char,
      ('"' :: ("fileName\": ".data ++ X)) = "\"fileName\"".data ++ (": ".data ++ X) :=
    fun X => rfl
  rw [rf, parseExact_append]
  simp only [Option.bind_eq_bind, Option.some_bind]
  rw [skipJsonWs_append_of_drop _ _ ':' [' '] (by decide)]
  rw [parseExact_cons_self]
  simp only [Option.bind_eq_bind, Option.some_bind]
  rw [skipJsonWs_append_ws [' '] _ (by decide)]
  rw [skipJsonWs_quote, parseJsonString_quote]
  simp only [Option.bind_eq_bind, Option.some_bind]
  rw [skipJsonWs_append_of_drop _ _ '}' [] (by decide)]
  rw [parseExact_cons_self]
  simp only [Option.bind_eq_bind, Option.some_bind]
  rfl

theorem joinEntries_single (p : String × SyncEntry) : joinEntries [p] = renderEntry p := rfl

theorem joinEntries_cons (p q : String × SyncEntry) (rest : List (String × SyncEntry)) :
    joinEntries (p :: q :: rest) = renderEntry p ++ ",\n" ++ joinEntries (q :: rest) := rfl

theorem parseMeetingsEntries_succ (fuel : Nat) (input : List Char) :
    parseMeetingsEntries (fuel + 1) input = (do
      let (k, i1) ← parseJsonString (skipJsonWs input)
      let i2 ← parseExact [':'] (skipJsonWs i1)
      let (e, i3) ← parseEntryObj i2
      match skipJsonWs i3 with
      | ',' :: i4 => do
        let (restEntries, i5) ← parseMeetingsEntries fuel i4
        return ((k, e) :: restEntries, i5)
      | '}' :: i4 => return ([(k, e)], i4)
      | _ => none) := rfl

theorem parseMeetingsEntries_skipped (fuel : Nat) (x : List Char) :
    parseMeetingsEntries fuel (skipJsonWs x) = parseMeetingsEntries fuel x := by
  cases fuel with
  | zero => rfl
  | succ g =>
    rw [parseMeetingsEntries_succ, parseMeetingsEntries_succ, skipJsonWs_idem]

theorem parseMeetingsEntries_join :
    ∀ (m : List (String × SyncEntry)) (fuel : Nat), m ≠ [] → m.length ≤ fuel →
    ∀ (pre rest : List Char), pre.all isJsonWs = true →
    parseMeetingsEntries fuel
        (pre ++ ((joinEntries m).data ++ ('\n' :: ' ' :: ' ' :: '}' :: rest)))
      = some (m, rest) := by
  intro m
  induction m with
  | nil => intro fuel h; exact absurd rfl h
  | cons p m' ih =>
    intro fuel _ hlen pre rest hpre
    cases fuel with
    | zero => simp at hlen
    | succ g =>
    rw [parseMeetingsEntries_succ]
    cases m' with
    | nil =>
      rw [joinEntries_single]
      simp only [renderEntry, String.data_append, List.append_assoc]
      rw [skipJsonWs_append_ws pre _ hpre]
      rw [skipJsonWs_append_ws ("    ".data) _ (by decide)]
      rw [skipJsonWs_quote, parseJsonString_quote]
      simp only [Option.bind_eq_bind, Option.some_bind]
      rw [skipJsonWs_append_of_drop _ _ ':' (" \x7b\n      \"syncedAt\": ".data) (by decide)]
      rw [parseExact_cons_self]
      simp only [Option.bind_eq_bind, Option.some_bind]
      rw [parseEntryObj_render]
      simp only [Option.bind_eq_bind, Option.some_bind]
      rfl
    | cons q tl =>
      rw [joinEntries_cons]
      simp only [renderEntry, String.data_append, List.append_assoc]
      rw [skipJsonWs_append_ws pre _ hpre]
      rw [skipJsonWs_append_ws ("    ".data) _ (by decide)]
      rw [skipJsonWs_quote, parseJsonString_quote]
      simp only [Option.bind_eq_bind, Option.some_bind]
      rw [skipJsonWs_append_of_drop _ _ ':' (" \x7b\n      \"syncedAt\": ".data) (by decide)]
      rw [parseExact_cons_self]
      simp only [Option.bind_eq_bind, Option.some_bind]
      rw [parseEntryObj_render]
      simp only [Option.bind_eq_bind, Option.some_bind]
      have hscr : skipJsonWs (",\n".data ++
            ((joinEntries (q :: tl)).data ++ ('\n' :: ' ' :: ' ' :: '}' :: rest)))
          = ',' :: ('\n' :: ((joinEntries (q :: tl)).data
              ++ ('\n' :: ' ' :: ' ' :: '}' :: rest))) := by
        show skipJsonWs (',' :: ('\n' :: ((joinEntries (q :: tl)).data
            ++ ('\n' :: ' ' :: ' ' :: '}' :: rest)))) = _
        exact skipJsonWs_cons_of_not _ _ (by decide)
      simp only [hscr]
      have hih := ih g (by simp) (by simpa using Nat.lt_succ_iff.mp (by simpa using hlen))
        ['\n'] rest (by decide)
      rw [List.singleton_append] at hih
      rw [hih]
      simp only [Option.bind_eq_bind, Option.some_bind]
      rfl

theorem joinEntries_data_shape (p : String × SyncEntry) (m' : List (String × SyncEntry)) :
    ∃ T, (joinEntries (p :: m')).data = ' ' :: ' ' :: ' ' :: ' ' :: '"' :: T := by
  cases m' with
  | nil => exact ⟨_, rfl⟩
  | cons q tl => exact ⟨_, rfl⟩

theorem joinEntries_length : ∀ m : List (String × SyncEntry),
    m.length ≤ (joinEntries m).data.length := by
  intro m
  induction m with
  | nil => simp
  | cons p m' ih =>
    cases m' with
    | nil =>
      rw [joinEntries_single]
      simp only [renderEntry]
      simp [String.data_append]
    | cons q tl =>
      rw [joinEntries_cons]
      simp only [String.data_append, List.length_append]
      have h2 : (q :: tl).length ≤ (joinEntries (q :: tl)).data.length := ih
      simp only [List.length_cons] at h2 ⊢
      omega

theorem renderMeetings_length (m : List (String × SyncEntry)) :
    m.length ≤ (renderMeetings m).data.length := by
  cases m with
  | nil => simp
  | cons p m' =>
    have h1 := joinEntries_length (p :: m')
    rw [show renderMeetings (p :: m') = "\x7b\n" ++ joinEntries (p :: m') ++ "\n  \x7d"
      from rfl]
    simp only [String.data_append, List.length_append]
    omega

theorem parseMeetingsObj_render (m : List (String × SyncEntry)) (fuel : Nat)
    (hf : m.length ≤ fuel) (rest : List Char) :
    parseMeetingsObj fuel ((renderMeetings m).data ++ rest) = some (m, rest) := by
  cases m with
  | nil => rfl
  | cons p m' =>
    rw [show renderMeetings (p :: m') = "\x7b\n" ++ joinEntries (p :: m') ++ "\n  \x7d"
      from rfl]
    simp only [String.data_append, List.append_assoc]
    simp only [parseMeetingsObj]
    rw [show ("\x7b\n".data ++ ((joinEntries (p :: m')).data ++ ("\n  \x7d".data ++ rest)))
        = '{' :: ('\n' :: ((joinEntries (p :: m')).data ++ ("\n  \x7d".data ++ rest)))
      from rfl]
    rw [skipJsonWs_cons_of_not _ _ (by decide)]
    rw [parseExact_cons_self]
    simp only [Option.bind_eq_bind, Option.some_bind]
    obtain ⟨T, hT⟩ := joinEntries_data_shape p m'
    have hscr : skipJsonWs ('\n' :: ((joinEntries (p :: m')).data
          ++ ("\n  \x7d".data ++ rest)))
        = '"' :: (T ++ ("\n  \x7d".data ++ rest)) := by
      rw [skipJsonWs_cons_of_ws _ _ (by decide), hT]
      simp only [List.cons_append]
      rw [skipJsonWs_cons_of_ws _ _ (by decide), skipJsonWs_cons_of_ws _ _ (by decide),
        skipJsonWs_cons_of_ws _ _ (by decide), skipJsonWs_cons_of_ws _ _ (by decide),
        skipJsonWs_cons_of_not _ _ (by decide)]
    rw [hscr]
    show parseMeetingsEntries fuel ('"' :: (T ++ ("\n  \x7d".data ++ rest)))
        = some (p :: m', rest)
    have hstep : parseMeetingsEntries fuel ('"' :: (T ++ ("\n  \x7d".data ++ rest)))
        = parseMeetingsEntries fuel ('\n' :: ((joinEntries (p :: m')).data
            ++ ("\n  \x7d".data ++ rest))) := by
      rw [← hscr, parseMeetingsEntries_skipped]
    rw [hstep]
    have hent := parseMeetingsEntries_join (p :: m') fuel (by simp) hf ['\n'] rest (by decide)
    rw [List.singleton_append] at hent
    exact hent

theorem parseSyncState_render (s : SyncState) : parseSyncState (renderSyncState s) = some s := by
  obtain ⟨v, m⟩ := s
  rw [show renderSyncState ⟨v, m⟩ = "\x7b\n  \"version\": " ++ natToDecimal v ++
      ",\n  \"syncedMeetings\": " ++ renderMeetings m ++ "\n\x7d" from rfl]
  simp only [parseSyncState]
  simp only [String.data_append, List.append_assoc]
  rw [skipJsonWs_append_of_drop _ _ '{' ("\n  \"version\": ".data) (by decide)]
  rw [parseExact_cons_self]
  simp only [Option.bind_eq_bind, Option.some_bind]
  rw [skipJsonWs_append_of_drop _ _ '"' ("version\": ".data) (by decide)]
  have rv : ∀ X : List Char,
      ('"' :: ("version\": ".data ++ X)) = "\"version\"".data ++ (": ".data ++ X) :=
    fun X => rfl
  rw [rv, parseExact_append]
  simp only [Option.bind_eq_bind, Option.some_bind]
  rw [skipJsonWs_append_of_drop _ _ ':' [' '] (by decide)]
  rw [parseExact_cons_self]
  simp only [Option.bind_eq_bind, Option.some_bind]
  rw [skipJsonWs_append_ws [' '] _ (by decide)]
  rw [skipJsonWs_decimal]
  have rc : ∀ X : List Char,
      (",\n  \"syncedMeetings\": ".data ++ X)
        = ',' :: ("\n  \"syncedMeetings\": ".data ++ X) :=
    fun X => rfl
  rw [rc, parseJsonNat_decimal _ ',' _ (by decide)]
  simp only [Option.bind_eq_bind, Option.some_bind]
  rw [skipJsonWs_cons_of_not _ _ (by decide)]
  rw [parseExact_cons_self]
  simp only [Option.bind_eq_bind, Option.some_bind]
  rw [skipJsonWs_append_of_drop _ _ '"' ("syncedMeetings\": ".data) (by decide)]
  have rs : ∀ X : List Char,
      ('"' :: ("syncedMeetings\": ".data ++ X))
        = "\"syncedMeetings\"".data ++ (": ".data ++ X) :=
    fun X => rfl
  rw [rs, parseExact_append]
  simp only [Option.bind_eq_bind, Option.some_bind]
  rw [skipJsonWs_append_of_drop _ _ ':' [' '] (by decide)]
  rw [parseExact_cons_self]
  simp only [Option.bind_eq_bind, Option.some_bind]
  rw [skipJsonWs_append_ws [' '] _ (by decide)]
  have hrm : ∀ R : List Char,
      skipJsonWs ((renderMeetings m).data ++ R) = (renderMeetings m).data ++ R := by
    intro R
    cases m with
    | nil => rfl
    | cons p m' =>
      have e : (renderMeetings (p :: m')).data ++ R
          = '{' :: ('\n' :: ((joinEntries (p :: m')).data ++ ("\n  \x7d".data ++ R))) := by
        rw [show renderMeetings (p :: m') = "\x7b\n" ++ joinEntries (p :: m') ++ "\n  \x7d"
          from rfl]
        simp [String.data_append, List.append_assoc]
      rw [e, skipJsonWs_cons_of_not _ _ (by decide), ← e]
  rw [hrm]
  rw [parseMeetingsObj_render]
  · simp only [Option.bind_eq_bind, Option.some_bind]
    rfl
  · have h1 := renderMeetings_length m
    simp only [List.length_append, List.length_cons]
    omega

theorem find_map_set (fs : FileSys) (p : String) (content : String)
    (h : fs.any (fun q => q.1 = p) = true) :
    (fs.map (fun q => if q.1 = p then (p, content) else q)).find? (fun q => q.1 = p)
      = some (p, content) := by
  induction fs with
  | nil => simp at h
  | cons a t ih =>
    rw [List.map_cons]
    by_cases ha : a.1 = p
    · rw [if_pos ha]
      exact List.find?_cons_of_pos _ (by simp)
    · rw [if_neg ha]
      rw [List.find?_cons_of_neg _ (by simp [ha])]
      apply ih
      rw [List.any_cons] at h
      simpa [ha] using h

theorem fsGet_fsSet_self (fs : FileSys) (p content : String) :
    fsGet (fsSet fs p content) p = some content := by
  rw [fsSet]
  by_cases h : fs.any (fun q => q.1 = p) = true
  · rw [if_pos h, fsGet, find_map_set fs p content h]
    rfl
  · rw [if_neg h, fsGet, List.find?_append]
    have h1 : fs.find? (fun q => q.1 = p) = none := by
      rw [List.find?_eq_none]
      intro x hx
      simp only [decide_eq_true_eq]
      intro hxp
      apply h
      rw [List.any_eq_true]
      exact ⟨x, hx, by simp [hxp]⟩
    rw [h1]
    simp [List.find?]

theorem readState_writeState (folder : String) (s : SyncState) (fs : FileSys) :
    readStateFS folder (writeStateFS folder s fs) = s := by
  simp only [writeStateFS, readStateFS, fsRename, fsGet_fsSet_self]
  rw [parseSyncState_render]
  rfl

/-- C6: writing the sync state and re-loading it returns an equal state —
version and the full map of synced ids to `(syncedAt, fileName)` entries —
for every state in the model's scope (control-character-free strings,
pairwise-distinct ids, as `JSON.stringify`/`JSON.parse` handle). -/
theorem saveLoad_roundTrip (folder : String) (s : SyncState) (fs : FileSys)
    (hsafe : jsonSafeState s = true)
    (hkeys : (s.syncedMeetings.map Prod.fst).Nodup) :
    readStateFS folder (writeStateFS folder s fs) = s :=
  readState_writeState folder s fs

/-- Witness for C6 on a concrete two-entry state containing characters
that need JSON escaping. -/
theorem saveLoad_roundTrip_witness :
    jsonSafeState ⟨1, [("123", ⟨5, "Call \"A\".md"⟩), ("456", ⟨7, "B\\C.md"⟩)]⟩ = true ∧
    (([("123", ⟨5, "Call \"A\".md"⟩), ("456", ⟨7, "B\\C.md"⟩)].map
        (Prod.fst (α := String) (β := SyncEntry))).Nodup) ∧
    readStateFS "Zoom"
        (writeStateFS "Zoom" ⟨1, [("123", ⟨5, "Call \"A\".md"⟩), ("456", ⟨7, "B\\C.md"⟩)]⟩ [])
      = ⟨1, [("123", ⟨5, "Call \"A\".md"⟩), ("456", ⟨7, "B\\C.md"⟩)]⟩ :=
  ⟨by decide, by decide,
    saveLoad_roundTrip "Zoom" _ [] (by decide) (by decide)⟩

end ZoomSync
